import Mathlib

/-! # mini_serv: line framing, connection registry and broadcast

A shallow embedding of the three servers of the repository,
`mini_serv.c`, `mini_serv_V1.c` and `mini_serv_V2.c`, and of the few libc
functions they are written with.

Conventions of the embedding.

* A `char` is a natural number; a buffer is the list of the bytes stored in it.
  The C string held by a buffer is the run of bytes before the first NUL
  (`cstr`). Heap strings the servers build with `strcat` and `strcpy` are kept
  as the list of their bytes (the terminator is not stored).
* A `char *` that may be `NULL` is an `Option`.
* An `int` is an `Int`; `next_id++` wraps at 32 bits (`int32`).
* An `fd_set` is the characteristic function of the set of handles whose bit
  is set.
* The calls the environment answers (`accept`, `recv`, `select`, `malloc`,
  `calloc`) take their answer as an argument.
* Every call of a broadcast function is logged as a `Broadcast`: the excluded
  handle, the text, and the handles `send` was called on, in order.
* The fixed arrays of the source (`client_list[MAX_CLIENTS]`, `msg[2000]`,
  `send_buffer[BUFFER_SIZE]`, ...) are modelled by what is stored in them; their
  sizes are constants of the model, not conditions of its operations. The
  bound of the `char msg[2000]` of `mini_serv.c` is in `sprintf_msg`,
  `line_loop_bounded` and `handle_client_message_bounded`, which are `none` on
  an overrun and agree with `line_loop` and `handle_client_message` otherwise.
* A loop whose number of iterations is not a structural measure takes a bound
  as first argument; the caller passes one the loop does not reach
  (`message_loop_fuel`, `dispatch_fuel`, `line_loop_lines`).
-/

namespace MiniServ

/-! ## libc -/

/-- The C string stored in a buffer: the bytes before the first NUL. -/
def cstr : List Nat → List Nat
  | [] => []
  | c :: rest => if c = 0 then [] else c :: cstr rest

/-- Model of `strlen`. -/
def strlen (s : List Nat) : Nat := (cstr s).length

/-- Model of `strcat(dest, src)`: the string of `dest` followed by the string of `src`. -/
def strcat (dest src : List Nat) : List Nat := cstr dest ++ cstr src

/-- Model of `strcpy(dest, src)`: the string of `src`. -/
def strcpy (src : List Nat) : List Nat := cstr src

/-- Model of `strstr(s, "\n")`, searched from index `i` with the bytes from `i`
on: the index of the first newline of the C string, if any. -/
def strstr_newline : List Nat → Nat → Option Nat
  | [], _ => none
  | c :: rest, i =>
    if c = 0 then none
    else if c = 10 then some i
    else strstr_newline rest (i + 1)

/-- The bytes of a string literal of the source. -/
def lit (s : String) : List Nat := s.toList.map Char.toNat

/-- Decimal digits of a natural number, as ASCII bytes. -/
def digits (n : Nat) : List Nat := (Nat.toDigits 10 n).map Char.toNat

/-- Conversion `%d` of `sprintf`. -/
def fmt_d (n : Int) : List Nat :=
  if n < 0 then 45 :: digits n.natAbs else digits n.toNat

/-- Value of a signed 32-bit `int` after an arithmetic result `x` (two's complement wrap). -/
def int32 (x : Int) : Int := (x + 2147483648) % 4294967296 - 2147483648

/-- An `fd_set`: the handles whose bit is set. -/
abbrev fd_set := Int → Bool

/-- Model of `FD_ZERO`. -/
def FD_ZERO : fd_set := fun _ => false

/-- Model of `FD_SET(fd, &set)`. -/
def FD_SET (fd : Int) (set : fd_set) : fd_set := fun x => if x = fd then true else set x

/-- Model of `FD_CLR(fd, &set)`. -/
def FD_CLR (fd : Int) (set : fd_set) : fd_set := fun x => if x = fd then false else set x

/-- Model of `FD_ISSET(fd, &set)`. -/
def FD_ISSET (fd : Int) (set : fd_set) : Bool := set fd

/-- One call of a broadcast function (`send_to_all_except`, `broadcast_to_others`,
`broadcast_to_all_except`): the handle it excludes, the text, and the handles
on which `send(fd, text, strlen(text), 0)` was called, in order. -/
structure Broadcast where
  sender_fd : Int
  message : List Nat
  sent_to : List Int
deriving DecidableEq, Repr

/-! ## The words of the specification about lines -/

/-- Auxiliary scan for `complete_lines` and `unterminated_tail`: `acc` is the
line read so far. -/
def split_lines (acc : List Nat) : List Nat → List (List Nat) × List Nat
  | [] => ([], acc)
  | c :: rest =>
    if c = 10 then
      ((acc ++ [10]) :: (split_lines [] rest).1, (split_lines [] rest).2)
    else split_lines (acc ++ [c]) rest

/-- The newline-terminated lines of a byte sequence, each with its newline, in order. -/
def complete_lines (bytes : List Nat) : List (List Nat) := (split_lines [] bytes).1

/-- What follows the last newline of a byte sequence (all of it when it has none). -/
def unterminated_tail (bytes : List Nat) : List Nat := (split_lines [] bytes).2

end MiniServ

/-! ## mini_serv_V1.c -/

namespace MiniServV1
open MiniServ

/-- Result of `get_complete_message`: the value returned and the two
out-parameters after the call. -/
structure Extracted where
  ret : Int
  buffer : Option (List Nat)
  message : Option (List Nat)
deriving DecidableEq, Repr

/-- The search loop of `get_complete_message`, entered at index `i` with the
bytes from `i` on: the index of the first newline of the C string, if any. -/
def scan : List Nat → Nat → Option Nat
  | [], _ => none
  | c :: rest, i =>
    if c = 0 then none
    else if c = 10 then some i
    else scan rest (i + 1)

/-- Model of `get_complete_message(&buffer, &message)`; `calloc_ok` tells whether
the `calloc` for the remaining data succeeds. -/
def get_complete_message (calloc_ok : Bool) (buffer_ptr : Option (List Nat)) : Extracted :=
  match buffer_ptr with
  | none => { ret := 0, buffer := none, message := none }
  | some buf =>
    match scan buf 0 with
    | none => { ret := 0, buffer := some buf, message := none }
    | some i =>
      if calloc_ok then
        { ret := 1
          buffer := some (strcpy (buf.drop (i + 1)))
          message := some (buf.take (i + 1)) }
      else { ret := -1, buffer := some buf, message := none }

/-- Model of `append_data(old_buffer, new_data)`; `malloc_ok` tells whether the
`malloc` succeeds. -/
def append_data (malloc_ok : Bool) (old_buffer : Option (List Nat)) (new_data : List Nat) :
    Option (List Nat) :=
  if malloc_ok then
    let combined_buffer : List Nat := []
    let combined_buffer :=
      match old_buffer with
      | none => combined_buffer
      | some old => strcat combined_buffer old
    some (strcat combined_buffer new_data)
  else none

end MiniServV1


/-! ## mini_serv_V2.c -/

namespace MiniServV2
open MiniServ

/-- Number of slots of `client_list`. -/
def MAX_CLIENTS : Nat := 100

/-- Size of `send_buffer` and of `receive_buffer`. -/
def BUFFER_SIZE : Nat := 65000

/-- A slot of `client_list`. -/
structure t_client where
  client_id : Int
  message_buffer : Option (List Nat)
deriving DecidableEq, Repr

/-- The global state. `client_list`, an array of `MAX_CLIENTS` slots indexed by
handle, is the map from a handle to its slot. -/
structure Server where
  read_set : fd_set
  write_set : fd_set
  master_set : fd_set
  server_socket : Int
  highest_fd : Int
  next_client_id : Int
  client_list : Int → t_client

/-- The assignment `client_list[fd] = c`. -/
def set_client (s : Server) (fd : Int) (c : t_client) : Server :=
  { s with client_list := fun x => if x = fd then c else s.client_list x }

/-- The assignment `client_list[fd].message_buffer = buffer`. -/
def set_message_buffer (s : Server) (fd : Int) (buffer : Option (List Nat)) : Server :=
  set_client s fd { client_id := (s.client_list fd).client_id, message_buffer := buffer }

/-- The handles `0 .. highest_fd` the loop of `broadcast_to_all_except` visits. -/
def fd_range (highest_fd : Int) : List Int :=
  (List.range (highest_fd + 1).toNat).map Int.ofNat

/-- Model of `broadcast_to_all_except(sender_fd, message)`. -/
def broadcast_to_all_except (s : Server) (sender_fd : Int) (message : List Nat) : Broadcast :=
  { sender_fd := sender_fd
    message := message
    sent_to := (fd_range s.highest_fd).filter (fun fd =>
      FD_ISSET fd s.write_set && decide (fd ≠ s.server_socket) && decide (fd ≠ sender_fd)) }

/-- Model of `notify_client_arrival(new_client_fd)`. -/
def notify_client_arrival (s : Server) (new_client_fd : Int) : Broadcast :=
  let client_id := (s.client_list new_client_fd).client_id
  broadcast_to_all_except s new_client_fd
    (lit "server: client " ++ fmt_d client_id ++ lit " just arrived\n")

/-- Model of `notify_client_departure(departed_client_fd)`. -/
def notify_client_departure (s : Server) (departed_client_fd : Int) : Broadcast :=
  let client_id := (s.client_list departed_client_fd).client_id
  broadcast_to_all_except s departed_client_fd
    (lit "server: client " ++ fmt_d client_id ++ lit " just left\n")

/-- Model of `initialize_new_client(client_fd)`. -/
def initialize_new_client (s : Server) (client_fd : Int) : Server :=
  { set_client s client_fd { client_id := s.next_client_id, message_buffer := none } with
    next_client_id := int32 (s.next_client_id + 1) }

/-- Model of `cleanup_client(client_fd)`. -/
def cleanup_client (s : Server) (client_fd : Int) : Server :=
  let s1 := { s with master_set := FD_CLR client_fd s.master_set }
  match (s1.client_list client_fd).message_buffer with
  | some _ => set_message_buffer s1 client_fd none
  | none => s1

/-- Model of `append_to_buffer(existing_buffer, new_data)`; `malloc_ok` tells
whether the `malloc` succeeds. -/
def append_to_buffer (malloc_ok : Bool) (existing_buffer : Option (List Nat))
    (new_data : List Nat) : Option (List Nat) :=
  if malloc_ok then
    let combined_buffer : List Nat := []
    let combined_buffer :=
      match existing_buffer with
      | none => combined_buffer
      | some existing => strcat combined_buffer existing
    some (strcat combined_buffer new_data)
  else none

/-- Result of `extract_complete_message`: the value returned and the two
out-parameters after the call. -/
structure Extracted where
  ret : Int
  buffer : Option (List Nat)
  extracted_message : Option (List Nat)
deriving DecidableEq, Repr

/-- The `while ((*buffer)[position])` search of `extract_complete_message`,
entered at index `position` with the bytes from there on: the index of the
first newline of the C string, if any. -/
def scan : List Nat → Nat → Option Nat
  | [], _ => none
  | c :: rest, position =>
    if c = 0 then none
    else if c = 10 then some position
    else scan rest (position + 1)

/-- Model of `extract_complete_message(&buffer, &extracted_message)`;
`calloc_ok` tells whether the `calloc` for the remaining data succeeds. -/
def extract_complete_message (calloc_ok : Bool) (buffer : Option (List Nat)) : Extracted :=
  match buffer with
  | none => { ret := 0, buffer := none, extracted_message := none }
  | some buf =>
    match scan buf 0 with
    | none => { ret := 0, buffer := some buf, extracted_message := none }
    | some position =>
      if calloc_ok then
        { ret := 1
          buffer := some (strcpy (buf.drop (position + 1)))
          extracted_message := some (buf.take (position + 1)) }
      else { ret := -1, buffer := some buf, extracted_message := none }

/-- Model of `broadcast_client_message(sender_fd, message)`. -/
def broadcast_client_message (s : Server) (sender_fd : Int) (message : List Nat) : Broadcast :=
  let client_id := (s.client_list sender_fd).client_id
  broadcast_to_all_except s sender_fd (lit "client " ++ fmt_d client_id ++ lit ": " ++ cstr message)

/-- Model of `handle_new_connection()`; `new_client_fd` is the answer of `accept`. -/
def handle_new_connection (s : Server) (new_client_fd : Int) : Server × List Broadcast :=
  if new_client_fd < 0 then (s, [])
  else
    let s1 := { s with master_set := FD_SET new_client_fd s.master_set }
    let s2 := if new_client_fd > s1.highest_fd then { s1 with highest_fd := new_client_fd } else s1
    let s3 := initialize_new_client s2 new_client_fd
    (s3, [notify_client_arrival s3 new_client_fd])

/-- What one call of `handle_client_message` did: the state it leaves, the
messages it passed to `broadcast_client_message`, and its broadcasts, in order. -/
structure Handled where
  state : Server
  lines : List (List Nat)
  broadcasts : List Broadcast

/-- The loop `while (extract_complete_message(...)) { broadcast_client_message(...); ... }`
of `handle_client_message`. `mem k` is the outcome of the `k`-th allocation of
the call. The result is `none` when the loop runs into undefined behaviour: a
`NULL` message handed to `%s`, which is what the body does when
`extract_complete_message` returns `-1`. The first argument bounds the number
of iterations; `handle_client_message` passes a bound the loop cannot reach. -/
def message_loop (mem : Nat → Bool) (client_fd : Int) : Nat → Nat → Server → Option Handled
  | 0, _, s => some { state := s, lines := [], broadcasts := [] }
  | fuel + 1, k, s =>
    let r := extract_complete_message (mem k) (s.client_list client_fd).message_buffer
    let s1 := set_message_buffer s client_fd r.buffer
    if r.ret = 0 then some { state := s1, lines := [], broadcasts := [] }
    else
      match r.extracted_message with
      | none => none
      | some extracted_message =>
        let b := broadcast_client_message s1 client_fd extracted_message
        (message_loop mem client_fd fuel (k + 1) s1).map (fun h =>
          { state := h.state
            lines := extracted_message :: h.lines
            broadcasts := b :: h.broadcasts })

/-- Length of the C string in a buffer pointer (0 for `NULL`). -/
def buffer_length (buffer : Option (List Nat)) : Nat :=
  match buffer with
  | none => 0
  | some buf => strlen buf

/-- Model of `handle_client_message(client_fd)`. `bytes_received` is the answer
of `recv` and `received` the bytes it stored in `receive_buffer`; `mem k` is
the outcome of the `k`-th allocation of the call (`mem 0` for `append_to_buffer`). -/
def handle_client_message (mem : Nat → Bool) (s : Server) (client_fd : Int)
    (bytes_received : Int) (received : List Nat) : Option Handled :=
  if bytes_received ≤ 0 then
    let b := notify_client_departure s client_fd
    some { state := cleanup_client s client_fd, lines := [], broadcasts := [b] }
  else
    let receive_buffer := received.take bytes_received.toNat ++ [0]
    let s1 := set_message_buffer s client_fd
      (append_to_buffer (mem 0) (s.client_list client_fd).message_buffer receive_buffer)
    message_loop mem client_fd (buffer_length (s1.client_list client_fd).message_buffer + 1) 1 s1

/-- The state `setup_server_socket` leaves when `socket` answers `server_socket`
(and `bind` and `listen` succeed). -/
def setup_server_socket (server_socket : Int) : Server :=
  { read_set := FD_ZERO
    write_set := FD_ZERO
    master_set := FD_SET server_socket FD_ZERO
    server_socket := server_socket
    highest_fd := server_socket
    next_client_id := 0
    client_list := fun _ => { client_id := 0, message_buffer := none } }

/-- An allocator that never fails. -/
def mem_ok : Nat → Bool := fun _ => true

end MiniServV2

/-! ## mini_serv.c -/

namespace MiniServ

/-- Size of the local `char msg[2000]` of `handle_client_message`, which
`sprintf` fills with the chat line. The model gives the text `sprintf` is
asked to write, of whatever length. -/
def MSG_SIZE : Nat := 2000

/-- Size of the local `char buffer[1000]` of `handle_client_message`, which
`recv` fills with at most `sizeof(buffer) - 1` bytes. -/
def RECV_SIZE : Nat := 1000

/-- A node of the `clients` list (the `next` pointer is the list structure). -/
structure t_client where
  fd : Int
  id : Int
  msg : List Nat
deriving DecidableEq, Repr

/-- The global state. `safe_malloc` and `safe_realloc` either return memory or
end the process, so a state is a state of the running process. -/
structure Server where
  clients : List t_client
  next_id : Int
  read_fds : fd_set
  write_fds : fd_set
  master_fds : fd_set
  max_fd : Int
  server_fd : Int

/-- Model of `add_client(fd)`. -/
def add_client (s : Server) (fd : Int) : Server :=
  let new_client : t_client := { fd := fd, id := s.next_id, msg := [] }
  { s with
    next_id := int32 (s.next_id + 1)
    clients := new_client :: s.clients
    max_fd := if fd > s.max_fd then fd else s.max_fd
    master_fds := FD_SET fd s.master_fds }

/-- The unlinking loop of `remove_client`: drops the first node whose handle is `fd`. -/
def unlink (fd : Int) : List t_client → List t_client
  | [] => []
  | current :: next => if current.fd = fd then next else current :: unlink fd next

/-- Model of `remove_client(fd)`. -/
def remove_client (s : Server) (fd : Int) : Server :=
  { s with clients := unlink fd s.clients, master_fds := FD_CLR fd s.master_fds }

/-- The search loop of `find_client`. -/
def find_in (fd : Int) : List t_client → Option t_client
  | [] => none
  | current :: next => if current.fd = fd then some current else find_in fd next

/-- Model of `find_client(fd)`. -/
def find_client (s : Server) (fd : Int) : Option t_client := find_in fd s.clients

/-- The loop of `send_to_all_except`: the handles `send` is called on. -/
def send_loop (sender_fd : Int) : List t_client → List Int
  | [] => []
  | current :: next =>
    if current.fd ≠ sender_fd then current.fd :: send_loop sender_fd next
    else send_loop sender_fd next

/-- Model of `send_to_all_except(sender_fd, msg)`. -/
def send_to_all_except (s : Server) (sender_fd : Int) (msg : List Nat) : Broadcast :=
  { sender_fd := sender_fd, message := msg, sent_to := send_loop sender_fd s.clients }

/-- Model of `send_to_all(msg)`. -/
def send_to_all (s : Server) (msg : List Nat) : Broadcast :=
  send_to_all_except s (-1) msg

/-- The search loop of `find_client_by_id`. -/
def find_id_in (id : Int) : List t_client → Option t_client
  | [] => none
  | current :: next => if current.id = id then some current else find_id_in id next

/-- Model of `find_client_by_id(id)`. -/
def find_client_by_id (s : Server) (id : Int) : Option t_client := find_id_in id s.clients

/-- Model of `notify_arrival(client_id)`; `none` when `find_client_by_id` returns
`NULL`, which the function dereferences. -/
def notify_arrival (s : Server) (client_id : Int) : Option Broadcast :=
  match find_client_by_id s client_id with
  | none => none
  | some client =>
    some (send_to_all_except s client.fd
      (lit "server: client " ++ fmt_d client_id ++ lit " just arrived\n"))

/-- Model of `notify_departure(client_id)`. -/
def notify_departure (s : Server) (client_id : Int) : Broadcast :=
  send_to_all s (lit "server: client " ++ fmt_d client_id ++ lit " just left\n")

/-- The loop `while ((newline = strstr(line_start, "\n")) != NULL)` of
`handle_client_message`: its broadcasts and the final `line_start`. The first
argument bounds the number of iterations; `handle_client_message` passes a
bound the loop cannot reach. The text of a broadcast is the text `sprintf` is
asked to write into `msg`, whatever its length: this is what the loop does as
long as that text fits `char msg[2000]`. `line_loop_bounded` is the loop with
the bound of `msg` (`none` on an overrun); the two agree when every text fits
(`line_loop_bounded_eq`). -/
def line_loop (s : Server) (client : t_client) : Nat → List Nat → List Broadcast × List Nat
  | 0, line_start => ([], line_start)
  | fuel + 1, line_start =>
    match strstr_newline line_start 0 with
    | none => ([], line_start)
    | some newline =>
      let line := cstr (line_start.set newline 0)
      let msg := lit "client " ++ fmt_d client.id ++ lit ": " ++ line ++ lit "\n"
      let b := send_to_all_except s client.fd msg
      let r := line_loop s client fuel (line_start.drop (newline + 1))
      (b :: r.1, r.2)

/-- The assignment `client->msg = msg` on the node of handle `fd`. -/
def set_msg (fd : Int) (msg : List Nat) : List t_client → List t_client
  | [] => []
  | current :: next =>
    if current.fd = fd then { current with msg := msg } :: next
    else current :: set_msg fd msg next

/-- Model of `handle_client_message(client)`. `bytes_read` is the answer of
`recv` and `received` the bytes it stored in `buffer`. The texts are those
`sprintf` is asked to write (see `line_loop`); `handle_client_message_bounded`
is the call with the bound of `msg`. -/
def handle_client_message (s : Server) (client : t_client) (bytes_read : Int)
    (received : List Nat) : Server × List Broadcast :=
  if bytes_read ≤ 0 then
    let b := notify_departure s client.id
    (remove_client s client.fd, [b])
  else
    let buffer := received.take bytes_read.toNat ++ [0]
    let msg := strcat client.msg buffer
    let r := line_loop s client (msg.length + 1) msg
    let line_start := r.2
    let remaining := if strlen line_start > 0 then strcpy line_start else []
    ({ s with clients := set_msg client.fd remaining s.clients }, r.1)

/-- Model of `accept_new_client()`; `client_fd` is the answer of `accept`. The
result is `none` when a `NULL` pointer is dereferenced. -/
def accept_new_client (s : Server) (client_fd : Int) : Option (Server × List Broadcast) :=
  if client_fd = -1 then some (s, [])
  else
    let s1 := add_client s client_fd
    match find_client s1 client_fd with
    | none => none
    | some new_client =>
      match notify_arrival s1 new_client.id with
      | none => none
      | some b => some (s1, [b])

/-- The state `main` reaches before its loop when `socket` answers `server_fd`. -/
def init (server_fd : Int) : Server :=
  { clients := []
    next_id := 0
    read_fds := FD_ZERO
    write_fds := FD_ZERO
    master_fds := FD_SET server_fd FD_ZERO
    max_fd := server_fd
    server_fd := server_fd }

/-- What the loop of `main` is asked to handle: a connection on the listening
handle, to which `accept` answers `client_fd`, or a readable client handle `fd`,
on which `recv` answers `bytes_read` and stores `received`. -/
inductive Event where
  | accept (client_fd : Int)
  | recv (fd : Int) (bytes_read : Int) (received : List Nat)
deriving DecidableEq, Repr

/-- One event handled by the loop of `main`. The loop walks the `clients` list,
so a readable handle with no node is not handled. -/
def step (s : Server) : Event → Option (Server × List Broadcast)
  | Event.accept client_fd => accept_new_client s client_fd
  | Event.recv fd bytes_read received =>
    match find_client s fd with
    | none => some (s, [])
    | some client => some (handle_client_message s client bytes_read received)

/-- A sequence of events handled in order: the final state and, for each
event, its broadcasts. -/
def run : Server → List Event → Option (Server × List (List Broadcast))
  | s, [] => some (s, [])
  | s, e :: es =>
    match step s e with
    | none => none
    | some r => (run r.1 es).map (fun q => (q.1, r.2 :: q.2))

/-- The identifiers of the nodes the successful accepts of a run created, in
order: after each such accept, the `id` of the node `find_client` returns for
the accepted handle. -/
def assigned_ids : Server → List Event → List Int
  | _, [] => []
  | s, e :: es =>
    match step s e with
    | none => []
    | some r =>
      match e with
      | Event.accept client_fd =>
        if client_fd = -1 then assigned_ids r.1 es
        else
          match find_client r.1 client_fd with
          | none => assigned_ids r.1 es
          | some new_client => new_client.id :: assigned_ids r.1 es
      | Event.recv _ _ _ => assigned_ids r.1 es

/-- Number of successful accepts among the events. -/
def accepts : List Event → Nat
  | [] => 0
  | Event.accept client_fd :: es => if client_fd = -1 then accepts es else accepts es + 1
  | Event.recv _ _ _ :: es => accepts es

end MiniServ

namespace MiniServV2
open MiniServ

/-- What the loop of `main` is asked to handle: the answer of `select` (the
ready handles among those of `master_set`), a connection on the listening
handle, to which `accept` answers `new_client_fd`, or a readable client handle,
on which `recv` answers `bytes_received` and stores `received` (`mem` gives the
outcomes of the allocations made while handling it). -/
inductive Event where
  | select (readable writable : fd_set)
  | accept (new_client_fd : Int)
  | recv (client_fd : Int) (bytes_received : Int) (received : List Nat) (mem : Nat → Bool)

/-- The two sets after `read_set = write_set = master_set` and a successful `select`. -/
def select_sets (s : Server) (readable writable : fd_set) : Server :=
  { s with
    read_set := fun fd => s.master_set fd && readable fd
    write_set := fun fd => s.master_set fd && writable fd }

/-- A handle is registered when it is watched and is not the listening handle. -/
def registered (s : Server) (fd : Int) : Bool :=
  FD_ISSET fd s.master_set && decide (fd ≠ s.server_socket)

/-- One event handled by the loop of `main`. The loop calls
`handle_client_message` only on handles of `read_set`, which `select` takes
from `master_set`: a handle that is not registered is not handled. -/
def step (s : Server) : Event → Option Handled
  | Event.select readable writable =>
    some { state := select_sets s readable writable, lines := [], broadcasts := [] }
  | Event.accept new_client_fd =>
    some { state := (handle_new_connection s new_client_fd).1, lines := []
           broadcasts := (handle_new_connection s new_client_fd).2 }
  | Event.recv client_fd bytes_received received mem =>
    if registered s client_fd then handle_client_message mem s client_fd bytes_received received
    else some { state := s, lines := [], broadcasts := [] }

/-- A sequence of events handled in order: the final state. -/
def run : Server → List Event → Option Server
  | s, [] => some s
  | s, e :: es =>
    match step s e with
    | none => none
    | some h => run h.state es

/-- The identifiers the successful accepts of a run stored in `client_list`, in
order: after each such accept, the `client_id` of the slot of the accepted handle. -/
def assigned_ids : Server → List Event → List Int
  | _, [] => []
  | s, e :: es =>
    match step s e with
    | none => []
    | some h =>
      match e with
      | Event.accept new_client_fd =>
        if new_client_fd < 0 then assigned_ids h.state es
        else (h.state.client_list new_client_fd).client_id :: assigned_ids h.state es
      | _ => assigned_ids h.state es

/-- Number of successful accepts among the events. -/
def accepts : List Event → Nat
  | [] => 0
  | Event.accept new_client_fd :: es => if new_client_fd < 0 then accepts es else accepts es + 1
  | _ :: es => accepts es

/-- The answers of the environment during one pass of the loop of `main`. -/
structure Pass where
  select_ret : Int
  readable : fd_set
  writable : fd_set
  accept_ret : Int
  recv_ret : Int → Int
  recv_data : Int → List Nat
  mem : Int → Nat → Bool

/-- The loop `for (int fd = 0; fd <= highest_fd; fd++)` of `main`, entered at
`fd`: the final state and the broadcasts, in order. The first argument bounds
the number of iterations; `main_pass` passes a bound the loop cannot reach. -/
def dispatch (e : Pass) : Nat → Int → Server → Option (Server × List Broadcast)
  | 0, _, s => some (s, [])
  | fuel + 1, fd, s =>
    if fd ≤ s.highest_fd then
      if FD_ISSET fd s.read_set = false then dispatch e fuel (fd + 1) s
      else if fd = s.server_socket then
        let r := handle_new_connection s e.accept_ret
        (dispatch e fuel (fd + 1) r.1).map (fun q => (q.1, r.2 ++ q.2))
      else
        match handle_client_message (e.mem fd) s fd (e.recv_ret fd) (e.recv_data fd) with
        | none => none
        | some h => (dispatch e fuel (fd + 1) h.state).map (fun q => (q.1, h.broadcasts ++ q.2))
    else some (s, [])

/-- One pass of the `while (1)` loop of `main`. -/
def main_pass (e : Pass) (s : Server) : Option (Server × List Broadcast) :=
  let s1 := { s with read_set := s.master_set, write_set := s.master_set }
  if e.select_ret < 0 then some (s1, [])
  else
    let s2 := select_sets s e.readable e.writable
    dispatch e ((max s2.highest_fd e.accept_ret + 1).toNat + 1) 0 s2

end MiniServV2

namespace MiniServ

/-- The invariant of the identifiers: `n` identifiers were given so far, the
next one is `n`, and the registered ones are distinct members of `0 .. n-1`. -/
def ids_ok (n : Nat) (s : Server) : Prop :=
  s.next_id = (n : Int) ∧ (s.clients.map (fun c => c.id)).Nodup ∧
    ∀ c ∈ s.clients, 0 ≤ c.id ∧ c.id < (n : Int)

end MiniServ

namespace MiniServV2
open MiniServ

/-- The invariant of the identifiers: `n` identifiers were given so far, the
next one is `n`, and the registered handles carry distinct members of `0 .. n-1`. -/
def ids_ok (n : Nat) (s : Server) : Prop :=
  s.next_client_id = (n : Int) ∧
    (∀ fd, registered s fd = true →
      0 ≤ (s.client_list fd).client_id ∧ (s.client_list fd).client_id < (n : Int)) ∧
    ∀ fd1 fd2, registered s fd1 = true → registered s fd2 = true →
      (s.client_list fd1).client_id = (s.client_list fd2).client_id → fd1 = fd2

end MiniServV2

namespace MiniServ

/-- The states `add_client` and `remove_client` reach from the initial one when
they are called as `main` calls them: `add_client(fd)` on a handle `accept`
returned, which is not registered and is not the listening handle;
`remove_client(fd)` on the handle of a registered client. -/
inductive Reachable (server_fd : Int) : Server → Prop
  | init : Reachable server_fd (init server_fd)
  | add (s : Server) (fd : Int) : Reachable server_fd s → fd ≠ server_fd →
      find_client s fd = none → Reachable server_fd (add_client s fd)
  | remove (s : Server) (client : t_client) : Reachable server_fd s → client ∈ s.clients →
      Reachable server_fd (remove_client s client.fd)

/-- The invariant behind the lockstep of registry and watch set. -/
def lockstep (server_fd : Int) (s : Server) : Prop :=
  (s.clients.map (fun c => c.fd)).Nodup ∧ server_fd ∉ s.clients.map (fun c => c.fd) ∧
    ∀ fd, FD_ISSET fd s.master_fds = true ↔ (fd = server_fd ∨ fd ∈ s.clients.map (fun c => c.fd))

end MiniServ

namespace MiniServV2
open MiniServ

/-- What the handlers of a pass keep of the state `select` left: the two ready
sets and the listening handle; and they do not lower `highest_fd`. -/
def keeps_sets (s s2 : Server) : Prop :=
  s2.write_set = s.write_set ∧ s2.read_set = s.read_set ∧
    s2.server_socket = s.server_socket ∧ s.highest_fd ≤ s2.highest_fd

/-- What `handle_client_message` keeps of the state `select` left: the two
ready sets, the listening handle and `highest_fd`. -/
def same_sets (s s2 : Server) : Prop :=
  s2.write_set = s.write_set ∧ s2.read_set = s.read_set ∧
    s2.server_socket = s.server_socket ∧ s2.highest_fd = s.highest_fd

/-- A state `s2` of the pass that began, in state `s`, with the answer
`readable`, `writable` of `select`: `write_set` and `server_socket` are those
the pass began with, and `highest_fd` has not gone down. -/
def in_pass (s : Server) (readable writable : fd_set) (s2 : Server) : Prop :=
  s2.write_set = (select_sets s readable writable).write_set ∧
    s2.server_socket = s.server_socket ∧ s.highest_fd ≤ s2.highest_fd

/-- The handles a broadcast was sent to are the handles registered in `s`
other than the excluded one. -/
def to_registered (s : Server) (b : Broadcast) : Prop :=
  ∀ fd, fd ∈ b.sent_to ↔ (registered s fd = true ∧ fd ≠ b.sender_fd)

/-- A server with one client, on handle 4, listening on handle 3. -/
def one_client : Server := (handle_new_connection (setup_server_socket 3) 4).1

/-- A server with two clients, on handles 4 and 5, listening on handle 3. -/
def two_clients : Server := (handle_new_connection one_client 5).1

/-- A pass in which a connection is pending, accepted on handle 5, and every
readable client handle has the line `"hi\n"` to read. -/
def pass_accept_and_data : Pass :=
  { select_ret := 2
    readable := fun _ => true
    writable := fun _ => true
    accept_ret := 5
    recv_ret := fun _ => 3
    recv_data := fun _ => lit "hi\n"
    mem := fun _ _ => true }

/-- A pass in which no connection is pending, the client of handle 4 has closed
and every other readable client handle has the line `"hi\n"` to read. -/
def pass_close_and_data : Pass :=
  { select_ret := 2
    readable := fun fd => decide (fd ≠ 3)
    writable := fun _ => true
    accept_ret := -1
    recv_ret := fun fd => if fd = 4 then 0 else 3
    recv_data := fun fd => if fd = 4 then [] else lit "hi\n"
    mem := fun _ _ => true }

end MiniServV2

namespace MiniServV2
open MiniServ

/-- The server `two_clients` after a `select` that found every handle ready,
with `"partial"` pending for the client of handle 5. -/
def two_clients_pending : Server :=
  set_message_buffer (select_sets two_clients (fun _ => true) (fun _ => true)) 5
    (some (lit "partial"))

end MiniServV2

namespace MiniServ

/-- The server of `mini_serv.c` with clients on handles 4 and 5, after the
first one sent `"he"`. -/
def two_clients : Server :=
  (handle_client_message (add_client (add_client (init 3) 4) 5)
    { fd := 4, id := 0, msg := [] } 2 (lit "he")).1

/-- The server of `mini_serv.c` after clients connected on handles 4 and 5 and
the first one left. -/
def after_leave : Server :=
  remove_client (add_client (add_client (init 3) 4) 5) 4

end MiniServ

namespace MiniServ

/-- The append step of `handle_client_message` in `mini_serv.c`
(`buffer[bytes_read] = '\0'`, `safe_realloc`, `strcat(client->msg, buffer)`):
what `client->msg` holds when the line loop starts. -/
def append_received (client : t_client) (bytes_read : Int) (received : List Nat) : List Nat :=
  strcat client.msg (received.take bytes_read.toNat ++ [0])

/-- The state in which the node of handle `fd` has the pending bytes `msg`. -/
def set_pending (s : Server) (fd : Int) (msg : List Nat) : Server :=
  { s with clients := set_msg fd msg s.clients }

/-- Whether `sprintf` writes a text, and its terminator, within `char msg[2000]`. -/
def fits_msg (text : List Nat) : Bool := decide (text.length + 1 ≤ MSG_SIZE)

/-- Model of `sprintf(msg, "client %d: %s\n", client->id, line_start)` on the
local `char msg[2000]` of `handle_client_message`, `line_start` holding the
bytes from the start of the line: the text written, or `none` when the text and
its terminator do not fit `msg`, the write running past the end of the array. -/
def sprintf_msg (id : Int) (line_start : List Nat) : Option (List Nat) :=
  let msg := lit "client " ++ fmt_d id ++ lit ": " ++ cstr line_start ++ lit "\n"
  if fits_msg msg then some msg else none

/-- The loop `while ((newline = strstr(line_start, "\n")) != NULL)` of
`handle_client_message` with the bound of `char msg[2000]`: its broadcasts and
the final `line_start`, or `none` when a `sprintf` of the loop overruns `msg`
(undefined behaviour). The first argument bounds the number of iterations. -/
def line_loop_bounded (s : Server) (client : t_client) :
    Nat → List Nat → Option (List Broadcast × List Nat)
  | 0, line_start => some ([], line_start)
  | fuel + 1, line_start =>
    match strstr_newline line_start 0 with
    | none => some ([], line_start)
    | some newline =>
      match sprintf_msg client.id (line_start.set newline 0) with
      | none => none
      | some msg =>
        let b := send_to_all_except s client.fd msg
        (line_loop_bounded s client fuel (line_start.drop (newline + 1))).map
          (fun r => (b :: r.1, r.2))

/-- Model of `handle_client_message(client)` with the bound of `char msg[2000]`:
`none` when a `sprintf` of the call overruns `msg`. `bytes_read` is the answer
of `recv` and `received` the bytes it stored in `buffer`. -/
def handle_client_message_bounded (s : Server) (client : t_client) (bytes_read : Int)
    (received : List Nat) : Option (Server × List Broadcast) :=
  if bytes_read ≤ 0 then
    let b := notify_departure s client.id
    some (remove_client s client.fd, [b])
  else
    let buffer := received.take bytes_read.toNat ++ [0]
    let msg := strcat client.msg buffer
    match line_loop_bounded s client (msg.length + 1) msg with
    | none => none
    | some r =>
      let line_start := r.2
      let remaining := if strlen line_start > 0 then strcpy line_start else []
      some ({ s with clients := set_msg client.fd remaining s.clients }, r.1)

/-- A run of `mini_serv.c` in which client 0, on handle 4, sends a line of 2000
bytes `a` and a newline in three reads of at most 999 bytes. -/
def long_line_events : List Event :=
  [ Event.accept 4, Event.accept 5,
    Event.recv 4 999 (List.replicate 999 97),
    Event.recv 4 999 (List.replicate 999 97),
    Event.recv 4 3 [97, 97, 10] ]

end MiniServ

namespace MiniServV2
open MiniServ

/-- The append step of `handle_client_message` in `mini_serv_V2.c`
(`receive_buffer[bytes_received] = '\0'`, then `append_to_buffer`): what
`message_buffer` holds when the extraction loop starts. -/
def append_received (mem : Nat → Bool) (s : Server) (client_fd : Int) (bytes_received : Int)
    (received : List Nat) : Option (List Nat) :=
  append_to_buffer (mem 0) (s.client_list client_fd).message_buffer
    (received.take bytes_received.toNat ++ [0])

end MiniServV2

namespace MiniServV2
open MiniServ

/-- An allocator whose `k`-th answer, from 0, is a failure, the others successes. -/
def mem_fails_at (k : Nat) : Nat → Bool := fun i => decide (i ≠ k)

/-- A call made by the loop of `main` for a ready handle: `handle_new_connection()`
when the handle is `server_socket`, `handle_client_message(fd)` otherwise. -/
inductive Serviced where
  | connection (fd : Int)
  | client (fd : Int)
deriving DecidableEq, Repr

/-- The calls the loop `for (int fd = 0; fd <= highest_fd; fd++)` of `main` makes,
in order, entered at `fd`: the loop of `dispatch`, seen from its calls. -/
def dispatch_calls (e : Pass) : Nat → Int → Server → List Serviced
  | 0, _, _ => []
  | fuel + 1, fd, s =>
    if fd ≤ s.highest_fd then
      if FD_ISSET fd s.read_set = false then dispatch_calls e fuel (fd + 1) s
      else if fd = s.server_socket then
        Serviced.connection fd ::
          dispatch_calls e fuel (fd + 1) (handle_new_connection s e.accept_ret).1
      else
        match handle_client_message (e.mem fd) s fd (e.recv_ret fd) (e.recv_data fd) with
        | none => [Serviced.client fd]
        | some h => Serviced.client fd :: dispatch_calls e fuel (fd + 1) h.state
    else []

/-- The calls one pass of the `while (1)` loop of `main` makes, in order. -/
def main_pass_calls (e : Pass) (s : Server) : List Serviced :=
  if e.select_ret < 0 then []
  else
    let s2 := select_sets s e.readable e.writable
    dispatch_calls e ((max s2.highest_fd e.accept_ret + 1).toNat + 1) 0 s2

/-- Successive passes of the `while (1)` loop of `main`, one per answer of the
environment: the state at the head of the next pass. -/
def passes : Server → List Pass → Option Server
  | s, [] => some s
  | s, e :: es =>
    match main_pass e s with
    | none => none
    | some q => passes q.1 es

/-- Every handle `accept` answers during the passes is above the listening handle
`server_socket`: `accept` answers the lowest free handle, and the handles below
`server_socket`, taken when `socket` answered it, are never closed. -/
def accepts_above (server_socket : Int) (es : List Pass) : Prop :=
  ∀ e ∈ es, e.accept_ret < 0 ∨ server_socket < e.accept_ret

/-- A pass in which `select` reports handles 3, 4 and 5 readable and every
handle writable, `accept` answers 6, and the clients of handles 4 and 5 each
sent `"hi\n"`. -/
def pass_all_ready : Pass :=
  { select_ret := 3
    readable := fun fd => decide (fd = 3 ∨ fd = 4 ∨ fd = 5)
    writable := fun _ => true
    accept_ret := 6
    recv_ret := fun _ => 3
    recv_data := fun _ => lit "hi\n"
    mem := fun _ => mem_ok }

/-- A pass in which only the listening handle 3 is ready and `accept` answers
`new_client_fd`. -/
def pass_accept (new_client_fd : Int) : Pass :=
  { select_ret := 1
    readable := fun fd => decide (fd = 3)
    writable := fun _ => true
    accept_ret := new_client_fd
    recv_ret := fun _ => 0
    recv_data := fun _ => []
    mem := fun _ => mem_ok }

/-- The server listening on handle 3 after two passes that accepted clients on
handles 4 and 5 (the listening server itself if a pass did not return). -/
def after_two_accepts : Server :=
  (passes (setup_server_socket 3) [pass_accept 4, pass_accept 5]).getD (setup_server_socket 3)

/-- A server listening on handle 5 with a client on the lower handle 4. -/
def listening_above : Server := (handle_new_connection (setup_server_socket 5) 4).1

/-- The listening handle is watched, within the range of the loop of `main`,
and below every registered handle. -/
def listening_lowest (s : Server) : Prop :=
  0 ≤ s.server_socket ∧ s.server_socket ≤ s.highest_fd ∧
    FD_ISSET s.server_socket s.master_set = true ∧
    ∀ fd, registered s fd = true → s.server_socket < fd

end MiniServV2

/-! ## Strings and lines -/

namespace MiniServ

theorem cstr_of_nul_free (b : List Nat) (h : 0 ∉ b) : cstr b = b := by
  induction b with
  | nil => rfl
  | cons c rest ih =>
    simp only [List.mem_cons, not_or] at h
    have hc : c ≠ 0 := fun e => h.1 e.symm
    simp [cstr, hc, ih h.2]

theorem nul_free_cstr (b : List Nat) : 0 ∉ cstr b := by
  induction b with
  | nil => simp [cstr]
  | cons c rest ih =>
    by_cases hc : c = 0
    · simp [cstr, hc]
    · simp only [cstr, hc, if_false, List.mem_cons, not_or]
      exact ⟨fun e => hc e.symm, ih⟩

theorem cstr_append_nul (b tail : List Nat) (h : 0 ∉ b) : cstr (b ++ 0 :: tail) = b := by
  induction b with
  | nil => simp [cstr]
  | cons c rest ih =>
    simp only [List.mem_cons, not_or] at h
    have hc : c ≠ 0 := fun e => h.1 e.symm
    simp [cstr, hc, ih h.2]

theorem strstr_newline_none (b : List Nat) (i : Nat) (h0 : 0 ∉ b) :
    strstr_newline b i = none ↔ 10 ∉ b := by
  induction b generalizing i with
  | nil => simp [strstr_newline]
  | cons c rest ih =>
    simp only [List.mem_cons, not_or] at h0
    have hc : c ≠ 0 := fun e => h0.1 e.symm
    by_cases hn : c = 10
    · simp [strstr_newline, hn]
    · have hn2 : ¬ (10 = c) := fun e => hn e.symm
      simp [strstr_newline, hc, hn, hn2, ih (i + 1) h0.2]

theorem strstr_newline_some (b : List Nat) (i k : Nat) (h0 : 0 ∉ b)
    (h : strstr_newline b i = some k) :
    ∃ pre rest, b = pre ++ 10 :: rest ∧ 10 ∉ pre ∧ k = i + pre.length := by
  induction b generalizing i with
  | nil => simp [strstr_newline] at h
  | cons c rest ih =>
    simp only [List.mem_cons, not_or] at h0
    have hc : c ≠ 0 := fun e => h0.1 e.symm
    by_cases hn : c = 10
    · subst hn
      simp [strstr_newline] at h
      exact ⟨[], rest, by simp, by simp, by simp [h]⟩
    · simp only [strstr_newline, hc, hn, if_false] at h
      obtain ⟨pre, rest2, hb, hpre, hk⟩ := ih (i + 1) h0.2 h
      refine ⟨c :: pre, rest2, by simp [hb], ?_, by rw [hk, List.length_cons]; omega⟩
      simp only [List.mem_cons, not_or]
      exact ⟨fun e => hn e.symm, hpre⟩

theorem strstr_newline_found (pre rest : List Nat) (i : Nat) (h0 : 0 ∉ pre) (hn : 10 ∉ pre) :
    strstr_newline (pre ++ 10 :: rest) i = some (i + pre.length) := by
  induction pre generalizing i with
  | nil => simp [strstr_newline]
  | cons c pre ih =>
    simp only [List.mem_cons, not_or] at h0 hn
    have hc : c ≠ 0 := fun e => h0.1 e.symm
    have hc2 : c ≠ 10 := fun e => hn.1 e.symm
    rw [List.cons_append, strstr_newline]
    simp only [hc, hc2, if_false]
    rw [ih (i + 1) h0.2 hn.2, List.length_cons]
    congr 1
    omega

theorem split_lines_no_newline (acc b : List Nat) (h : 10 ∉ b) :
    split_lines acc b = ([], acc ++ b) := by
  induction b generalizing acc with
  | nil => simp [split_lines]
  | cons c rest ih =>
    simp only [List.mem_cons, not_or] at h
    have hc : c ≠ 10 := fun e => h.1 e.symm
    simp [split_lines, hc, ih _ h.2]

theorem split_lines_first (acc pre rest : List Nat) (h : 10 ∉ pre) :
    split_lines acc (pre ++ 10 :: rest) =
      ((acc ++ pre ++ [10]) :: (split_lines [] rest).1, (split_lines [] rest).2) := by
  induction pre generalizing acc with
  | nil => simp [split_lines]
  | cons c pre ih =>
    simp only [List.mem_cons, not_or] at h
    have hc : c ≠ 10 := fun e => h.1 e.symm
    rw [List.cons_append, split_lines]
    simp only [hc, if_false]
    rw [ih _ h.2]
    simp

theorem complete_lines_first (pre rest : List Nat) (h : 10 ∉ pre) :
    complete_lines (pre ++ 10 :: rest) = (pre ++ [10]) :: complete_lines rest := by
  simp [complete_lines, split_lines_first [] pre rest h]

theorem unterminated_tail_first (pre rest : List Nat) (h : 10 ∉ pre) :
    unterminated_tail (pre ++ 10 :: rest) = unterminated_tail rest := by
  simp [unterminated_tail, split_lines_first [] pre rest h]

theorem complete_lines_no_newline (b : List Nat) (h : 10 ∉ b) : complete_lines b = [] := by
  simp [complete_lines, split_lines_no_newline [] b h]

theorem unterminated_tail_no_newline (b : List Nat) (h : 10 ∉ b) : unterminated_tail b = b := by
  simp [unterminated_tail, split_lines_no_newline [] b h]

theorem split_lines_sublists (acc b : List Nat) (h0 : 0 ∉ acc) (hb : 0 ∉ b) :
    (∀ l ∈ (split_lines acc b).1, 0 ∉ l) ∧ 0 ∉ (split_lines acc b).2 := by
  induction b generalizing acc with
  | nil => simpa [split_lines] using h0
  | cons c rest ih =>
    simp only [List.mem_cons, not_or] at hb
    by_cases hc : c = 10
    · have := ih [] (by simp) hb.2
      simp only [split_lines, hc, if_true, List.mem_cons, forall_eq_or_imp]
      refine ⟨⟨?_, this.1⟩, this.2⟩
      simp only [List.mem_append, List.mem_singleton, not_or]
      exact ⟨h0, by decide⟩
    · simp only [split_lines, hc, if_false]
      apply ih _ _ hb.2
      simp only [List.mem_append, List.mem_singleton, not_or]
      exact ⟨h0, hb.1⟩

theorem unterminated_tail_nul_free (b : List Nat) (hb : 0 ∉ b) : 0 ∉ unterminated_tail b :=
  (split_lines_sublists [] b (by simp) hb).2

end MiniServ

/-! ## mini_serv_V1.c: one extraction step -/

namespace MiniServV1
open MiniServ

theorem scan_eq_v1 (b : List Nat) (i : Nat) : scan b i = strstr_newline b i := by
  induction b generalizing i with
  | nil => rfl
  | cons c rest ih => simp only [scan, strstr_newline, ih]

/-- C10. One call of `get_complete_message` with a successful `calloc`, on a
buffer `B` without NUL: when `B` has a newline the call returns 1, the message
is the prefix of `B` up to and including its first newline (`pre ++ [10]` with
no newline in `pre`), the new buffer is the rest, and message and new buffer
put together give `B` back; when `B` has no newline the call returns 0 with a
`NULL` message and leaves the buffer as it is; so does the call on a `NULL` buffer. -/
theorem get_complete_message_spec (B : List Nat) (h0 : 0 ∉ B) :
    (10 ∈ B → ∃ pre rest, 10 ∉ pre ∧ B = pre ++ 10 :: rest ∧
        get_complete_message true (some B) =
          { ret := 1, buffer := some rest, message := some (pre ++ [10]) } ∧
        (pre ++ [10]) ++ rest = B) ∧
    (10 ∉ B → get_complete_message true (some B) =
        { ret := 0, buffer := some B, message := none }) ∧
    get_complete_message true none = { ret := 0, buffer := none, message := none } := by
  refine ⟨?_, ?_, rfl⟩
  · intro hn
    cases hs : strstr_newline B 0 with
    | none => exact absurd hn ((strstr_newline_none B 0 h0).1 hs)
    | some k =>
      obtain ⟨pre, rest, hB, hpre, hk⟩ := strstr_newline_some B 0 k h0 hs
      refine ⟨pre, rest, hpre, hB, ?_, by simp [hB]⟩
      have hrest : 0 ∉ rest := by
        intro h; apply h0; rw [hB]; simp [h]
      have hk2 : k = pre.length := by omega
      simp only [get_complete_message, scan_eq_v1, hs, if_true, strcpy]
      subst hk2
      rw [hB]
      simp [cstr_of_nul_free rest hrest, List.take_append_eq_append_take]
  · intro hn
    have hs := (strstr_newline_none B 0 h0).2 hn
    simp only [get_complete_message, scan_eq_v1, hs]

/-- Witness of C10 on the buffer `"ab\ncd\ne"`. -/
theorem get_complete_message_spec_witness :
    0 ∉ lit "ab\ncd\ne" ∧
    get_complete_message true (some (lit "ab\ncd\ne")) =
      { ret := 1, buffer := some (lit "cd\ne"), message := some (lit "ab\n") } ∧
    get_complete_message true (some (lit "e")) =
      { ret := 0, buffer := some (lit "e"), message := none } :=
  ⟨by decide, by decide, (get_complete_message_spec (lit "e") (by decide)).2.1 (by decide)⟩

end MiniServV1

/-! ## mini_serv_V2.c: framing -/

namespace MiniServV2
open MiniServ

theorem scan_eq_v2 (b : List Nat) (i : Nat) : scan b i = strstr_newline b i := by
  induction b generalizing i with
  | nil => rfl
  | cons c rest ih => simp only [scan, strstr_newline, ih]

theorem set_message_buffer_same (s : Server) (fd : Int) (x : Option (List Nat)) :
    (set_message_buffer s fd x).client_list fd =
      { client_id := (s.client_list fd).client_id, message_buffer := x } := by
  simp [set_message_buffer, set_client]

theorem set_message_buffer_other (s : Server) (fd fd2 : Int) (x : Option (List Nat))
    (h : fd2 ≠ fd) : (set_message_buffer s fd x).client_list fd2 = s.client_list fd2 := by
  simp [set_message_buffer, set_client, h]

theorem set_message_buffer_id (s : Server) (fd fd2 : Int) (x : Option (List Nat)) :
    ((set_message_buffer s fd x).client_list fd2).client_id = (s.client_list fd2).client_id := by
  by_cases h : fd2 = fd
  · subst h; rw [set_message_buffer_same]
  · rw [set_message_buffer_other s fd fd2 x h]

theorem set_message_buffer_twice (s : Server) (fd : Int) (x y : Option (List Nat)) :
    set_message_buffer (set_message_buffer s fd x) fd y = set_message_buffer s fd y := by
  unfold set_message_buffer set_client
  simp only [if_true]
  congr 1
  funext z
  by_cases hz : z = fd <;> simp [hz]

theorem broadcast_client_message_set (s : Server) (fd sender : Int) (x : Option (List Nat))
    (m : List Nat) :
    broadcast_client_message (set_message_buffer s fd x) sender m =
      broadcast_client_message s sender m := by
  unfold broadcast_client_message
  rw [set_message_buffer_id]
  rfl

theorem broadcast_client_message_set_fun (s : Server) (fd sender : Int)
    (x : Option (List Nat)) :
    broadcast_client_message (set_message_buffer s fd x) sender =
      broadcast_client_message s sender :=
  funext (broadcast_client_message_set s fd sender x)

theorem extract_found (pre rest : List Nat) (h0 : 0 ∉ pre ++ 10 :: rest) (hn : 10 ∉ pre) :
    extract_complete_message true (some (pre ++ 10 :: rest)) =
      { ret := 1, buffer := some rest, extracted_message := some (pre ++ [10]) } := by
  have hpre : 0 ∉ pre := fun h => h0 (by simp [h])
  have hrest : 0 ∉ rest := fun h => h0 (by simp [h])
  have hs := strstr_newline_found pre rest 0 hpre hn
  simp only [extract_complete_message, scan_eq_v2, hs, if_true, strcpy]
  simp [cstr_of_nul_free rest hrest, List.take_append_eq_append_take]

theorem extract_not_found (b : List Nat) (ok : Bool) (h0 : 0 ∉ b) (hn : 10 ∉ b) :
    extract_complete_message ok (some b) =
      { ret := 0, buffer := some b, extracted_message := none } := by
  have hs := (strstr_newline_none b 0 h0).2 hn
  simp only [extract_complete_message, scan_eq_v2, hs]

theorem message_loop_lines (mem : Nat → Bool) (hmem : ∀ k, mem k = true) (fd : Int) :
    ∀ (fuel : Nat) (b : List Nat) (s : Server) (k : Nat),
      (s.client_list fd).message_buffer = some b → 0 ∉ b → b.length < fuel →
      message_loop mem fd fuel k s =
        some { state := set_message_buffer s fd (some (unterminated_tail b))
               lines := complete_lines b
               broadcasts := (complete_lines b).map (broadcast_client_message s fd) } := by
  intro fuel
  induction fuel with
  | zero => intro b s k _ _ hlen; omega
  | succ fuel ih =>
    intro b s k hb h0 hlen
    by_cases hn : 10 ∈ b
    · cases hs : strstr_newline b 0 with
      | none => exact absurd hn ((strstr_newline_none b 0 h0).1 hs)
      | some j =>
        obtain ⟨pre, rest, hB, hpre, -⟩ := strstr_newline_some b 0 j h0 hs
        subst hB
        have hrest : 0 ∉ rest := fun h => h0 (by simp [h])
        have hx := extract_found pre rest h0 hpre
        have hlen2 : rest.length < fuel := by
          simp only [List.length_append, List.length_cons] at hlen; omega
        have hrec := ih rest (set_message_buffer s fd (some rest)) (k + 1)
          (by rw [set_message_buffer_same]) hrest hlen2
        simp only [message_loop, hb, hmem, hx]
        rw [hrec]
        simp only [set_message_buffer_twice, Option.map_some', complete_lines_first pre rest hpre,
          unterminated_tail_first pre rest hpre, List.map_cons,
          broadcast_client_message_set_fun]
        simp
    · have hx := extract_not_found b (mem k) h0 hn
      simp only [message_loop, hb, hx, if_true, complete_lines_no_newline b hn,
        unterminated_tail_no_newline b hn, List.map_nil]

theorem handle_client_message_lines (mem : Nat → Bool) (hmem : ∀ k, mem k = true) (s : Server)
    (fd : Int) (R : List Nat) (hR : R ≠ []) (h0 : 0 ∉ R)
    (hp0 : 0 ∉ ((s.client_list fd).message_buffer).getD []) :
    handle_client_message mem s fd R.length R =
      some { state := set_message_buffer s fd
               (some (unterminated_tail (((s.client_list fd).message_buffer).getD [] ++ R)))
             lines := complete_lines (((s.client_list fd).message_buffer).getD [] ++ R)
             broadcasts := (complete_lines (((s.client_list fd).message_buffer).getD [] ++ R)).map
               (broadcast_client_message s fd) } := by
  have hpos : ¬ ((R.length : Int) ≤ 0) := by
    have : 0 < R.length := List.length_pos.mpr hR
    omega
  have hbuf : append_to_buffer (mem 0) (s.client_list fd).message_buffer
      (List.take (R.length : Int).toNat R ++ [0]) =
      some (((s.client_list fd).message_buffer).getD [] ++ R) := by
    simp only [append_to_buffer, hmem, if_true, Int.toNat_ofNat, List.take_length, strcat]
    cases hb : (s.client_list fd).message_buffer with
    | none => simp [cstr, cstr_append_nul R [] h0]
    | some pb =>
      rw [hb] at hp0
      simp only [Option.getD_some] at hp0
      simp [cstr, cstr_append_nul R [] h0, cstr_of_nul_free pb hp0]
  have hnul : 0 ∉ ((s.client_list fd).message_buffer).getD [] ++ R := by
    simp only [List.mem_append, not_or]; exact ⟨hp0, h0⟩
  simp only [handle_client_message, hpos, if_false, hbuf]
  rw [message_loop_lines mem hmem fd _ _ _ 1 (by rw [set_message_buffer_same]) hnul
    (by rw [set_message_buffer_same]; simp [buffer_length, strlen, cstr_of_nul_free _ hnul])]
  simp only [set_message_buffer_twice, broadcast_client_message_set_fun]

end MiniServV2

/-! ## mini_serv_V2.c: disconnection -/

namespace MiniServV2
open MiniServ

theorem cleanup_client_master (s : Server) (fd : Int) :
    (cleanup_client s fd).master_set = FD_CLR fd s.master_set := by
  unfold cleanup_client
  cases h : (s.client_list fd).message_buffer with
  | none => simp [h]
  | some b => simp [h, set_message_buffer, set_client]

theorem mem_sent_to (s : Server) (sender_fd : Int) (message : List Nat) (fd : Int) :
    fd ∈ (broadcast_to_all_except s sender_fd message).sent_to ↔
      (0 ≤ fd ∧ fd ≤ s.highest_fd ∧ FD_ISSET fd s.write_set = true ∧
        fd ≠ s.server_socket ∧ fd ≠ sender_fd) := by
  simp only [broadcast_to_all_except, fd_range, List.mem_filter, List.mem_map, List.mem_range,
    Bool.and_eq_true, decide_eq_true_eq]
  constructor
  · rintro ⟨⟨n, hn, rfl⟩, ⟨h1, h2⟩, h3⟩
    refine ⟨Int.ofNat_nonneg n, ?_, h1, h2, h3⟩
    have : (n : Int) < s.highest_fd + 1 := by
      have h := Int.lt_toNat.mp hn
      exact h
    show (n : Int) ≤ s.highest_fd
    omega
  · rintro ⟨h0, h1, h2, h3, h4⟩
    refine ⟨⟨fd.toNat, ?_, ?_⟩, ⟨h2, h3⟩, h4⟩
    · omega
    · exact Int.toNat_of_nonneg h0

end MiniServV2

/-! ## mini_serv.c: registry and identifiers -/

namespace MiniServ

theorem int32_of_small (x : Int) (h0 : 0 ≤ x) (h1 : x < 2147483648) : int32 x = x := by
  unfold int32
  omega

theorem find_in_add (s : Server) (fd : Int) :
    find_client (add_client s fd) fd = some { fd := fd, id := s.next_id, msg := [] } := by
  simp [find_client, add_client, find_in]

theorem find_id_in_add (s : Server) (fd : Int) :
    find_client_by_id (add_client s fd) s.next_id =
      some { fd := fd, id := s.next_id, msg := [] } := by
  simp [find_client_by_id, add_client, find_id_in]

theorem accept_new_client_ok (s : Server) (client_fd : Int) (h : client_fd ≠ -1) :
    accept_new_client s client_fd =
      some (add_client s client_fd,
        [send_to_all_except (add_client s client_fd) client_fd
          (lit "server: client " ++ fmt_d s.next_id ++ lit " just arrived\n")]) := by
  simp only [accept_new_client, h, if_false, find_in_add, notify_arrival, find_id_in_add]

theorem accept_new_client_fail (s : Server) : accept_new_client s (-1) = some (s, []) := by
  simp [accept_new_client]

theorem set_msg_ids (fd : Int) (msg : List Nat) (l : List t_client) :
    (set_msg fd msg l).map (fun c => c.id) = l.map (fun c => c.id) := by
  induction l with
  | nil => rfl
  | cons c rest ih =>
    by_cases h : c.fd = fd
    · simp [set_msg, h]
    · simp [set_msg, h, ih]

theorem set_msg_fds (fd : Int) (msg : List Nat) (l : List t_client) :
    (set_msg fd msg l).map (fun c => c.fd) = l.map (fun c => c.fd) := by
  induction l with
  | nil => rfl
  | cons c rest ih =>
    by_cases h : c.fd = fd
    · simp [set_msg, h]
    · simp [set_msg, h, ih]

theorem unlink_sublist (fd : Int) (l : List t_client) : (unlink fd l).Sublist l := by
  induction l with
  | nil => exact List.Sublist.refl _
  | cons c rest ih =>
    by_cases h : c.fd = fd
    · simp only [unlink, h, if_true]
      exact List.sublist_cons_self c rest
    · simp only [unlink, h, if_false]
      exact ih.cons₂ c

/-- The part of the state the identifiers depend on after a call of
`handle_client_message`: `next_id` is kept and the list of identifiers is a
sublist of the former one. -/
theorem handle_client_message_ids (s : Server) (client : t_client) (bytes_read : Int)
    (received : List Nat) :
    (handle_client_message s client bytes_read received).1.next_id = s.next_id ∧
    ((handle_client_message s client bytes_read received).1.clients.map (fun c => c.id)).Sublist
      (s.clients.map (fun c => c.id)) := by
  unfold handle_client_message
  by_cases h : bytes_read ≤ 0
  · simp only [h, if_true, remove_client]
    exact ⟨trivial, (unlink_sublist client.fd s.clients).map _⟩
  · simp only [h, if_false, set_msg_ids]
    exact ⟨trivial, List.Sublist.refl _⟩

theorem ids_ok_step_recv (n : Nat) (s : Server) (fd bytes_read : Int) (received : List Nat)
    (h : ids_ok n s) :
    ∃ r, step s (Event.recv fd bytes_read received) = some r ∧ ids_ok n r.1 := by
  cases hf : find_client s fd with
  | none => exact ⟨(s, []), by simp only [step, hf], h⟩
  | some client =>
    refine ⟨handle_client_message s client bytes_read received, by simp only [step, hf], ?_⟩
    obtain ⟨h1, h2⟩ := handle_client_message_ids s client bytes_read received
    refine ⟨h1.trans h.1, h.2.1.sublist h2, ?_⟩
    intro c hc
    have hmem : c.id ∈ s.clients.map (fun c => c.id) :=
      h2.subset (List.mem_map_of_mem _ hc)
    obtain ⟨c2, hc2, he⟩ := List.mem_map.1 hmem
    have := h.2.2 c2 hc2
    rw [← he]
    exact this

theorem ids_ok_add (n : Nat) (s : Server) (fd : Int) (h : ids_ok n s)
    (hn : n + 1 < 2147483648) : ids_ok (n + 1) (add_client s fd) := by
  obtain ⟨h1, h2, h3⟩ := h
  refine ⟨?_, ?_, ?_⟩
  · show int32 (s.next_id + 1) = ((n + 1 : Nat) : Int)
    rw [h1, int32_of_small _ (by omega) (by omega)]
    push_cast
    rfl
  · show ((({ fd := fd, id := s.next_id, msg := [] } : t_client) :: s.clients).map
        (fun c => c.id)).Nodup
    simp only [List.map_cons, List.nodup_cons]
    refine ⟨?_, h2⟩
    intro hmem
    obtain ⟨c, hc, he⟩ := List.mem_map.1 hmem
    have := (h3 c hc).2
    omega
  · intro c hc
    have hc2 : c = { fd := fd, id := s.next_id, msg := [] } ∨ c ∈ s.clients := by
      simpa [add_client] using hc
    rcases hc2 with rfl | hc2
    · simp only [h1]
      push_cast
      omega
    · have := h3 c hc2
      push_cast
      omega

end MiniServ

namespace MiniServ

theorem run_ids (es : List Event) :
    ∀ (s : Server) (n : Nat), ids_ok n s → n + accepts es < 2147483648 →
      ∃ s2 logs, run s es = some (s2, logs) ∧ ids_ok (n + accepts es) s2 ∧
        assigned_ids s es = (List.range' n (accepts es)).map Int.ofNat := by
  induction es with
  | nil =>
    intro s n h _
    exact ⟨s, [], rfl, h, rfl⟩
  | cons e es ih =>
    intro s n h hn
    cases e with
    | accept client_fd =>
      by_cases hfd : client_fd = -1
      · subst hfd
        simp only [accepts, if_true] at hn ⊢
        obtain ⟨s2, logs, hr, hi, ha⟩ := ih s n h hn
        refine ⟨s2, [] :: logs, ?_, hi, ?_⟩
        · simp only [run, step, accept_new_client_fail, hr, Option.map_some']
        · simp only [assigned_ids, step, accept_new_client_fail, if_true, ha]
      · simp only [accepts, hfd, if_false] at hn ⊢
        have hadd := ids_ok_add n s client_fd h (by omega)
        obtain ⟨s2, logs, hr, hi, ha⟩ := ih (add_client s client_fd) (n + 1) hadd (by omega)
        refine ⟨s2, [send_to_all_except (add_client s client_fd) client_fd
          (lit "server: client " ++ fmt_d s.next_id ++ lit " just arrived\n")] :: logs, ?_, ?_, ?_⟩
        · simp only [run, step, accept_new_client_ok s client_fd hfd, hr, Option.map_some']
        · have e : n + (accepts es + 1) = n + 1 + accepts es := by omega
          rw [e]; exact hi
        · simp only [assigned_ids, step, accept_new_client_ok s client_fd hfd, hfd, if_false,
            find_in_add, ha, h.1]
          rw [List.range'_succ]
          rfl
    | recv fd bytes_read received =>
      obtain ⟨r, hs, hi⟩ := ids_ok_step_recv n s fd bytes_read received h
      simp only [accepts] at hn ⊢
      obtain ⟨s2, logs, hr, hi2, ha⟩ := ih r.1 n hi hn
      refine ⟨s2, r.2 :: logs, ?_, hi2, ?_⟩
      · simp only [run, hs, hr, Option.map_some']
      · simp only [assigned_ids, hs, ha]

theorem ids_ok_init (server_fd : Int) : ids_ok 0 (init server_fd) := by
  refine ⟨rfl, ?_, ?_⟩
  · simp [init]
  · intro c hc
    simp [init] at hc

end MiniServ

/-! ## mini_serv_V2.c: identifiers -/

namespace MiniServV2
open MiniServ

theorem handle_new_connection_fail (s : Server) (fd : Int) (h : fd < 0) :
    handle_new_connection s fd = (s, []) := by
  simp [handle_new_connection, h]

theorem handle_new_connection_slot (s : Server) (fd : Int) (h : ¬ fd < 0) :
    ((handle_new_connection s fd).1.client_list fd) =
      { client_id := s.next_client_id, message_buffer := none } ∧
    (∀ x, x ≠ fd → (handle_new_connection s fd).1.client_list x = s.client_list x) ∧
    (handle_new_connection s fd).1.next_client_id = int32 (s.next_client_id + 1) ∧
    (handle_new_connection s fd).1.master_set = FD_SET fd s.master_set ∧
    (handle_new_connection s fd).1.server_socket = s.server_socket := by
  simp only [handle_new_connection, h, if_false, initialize_new_client, set_client]
  by_cases hh : fd > s.highest_fd
  · simp only [hh, if_true]
    exact ⟨by simp, fun x hx => by simp [hx], trivial, trivial, trivial⟩
  · simp only [hh, if_false]
    exact ⟨by simp, fun x hx => by simp [hx], trivial, trivial, trivial⟩

theorem handle_new_connection_sets (s : Server) (fd : Int) (h : ¬ fd < 0) :
    (handle_new_connection s fd).2 =
      [broadcast_to_all_except (handle_new_connection s fd).1 fd
        (lit "server: client " ++ fmt_d s.next_client_id ++ lit " just arrived\n")] := by
  have hslot := (handle_new_connection_slot s fd h).1
  simp only [handle_new_connection, h, if_false] at hslot ⊢
  simp only [notify_client_arrival, hslot]

end MiniServV2

/-! ## Identifier assignment -/

namespace MiniServ

end MiniServ

/-! ## mini_serv.c: broadcasts -/

namespace MiniServ

theorem mem_send_loop (sender_fd x : Int) (l : List t_client) :
    x ∈ send_loop sender_fd l ↔ x ∈ l.map (fun c => c.fd) ∧ x ≠ sender_fd := by
  induction l with
  | nil => simp [send_loop]
  | cons c rest ih =>
    by_cases h : c.fd = sender_fd
    · simp only [send_loop, h, ne_eq, not_true_eq_false, if_false, ih, List.map_cons,
        List.mem_cons]
      constructor
      · rintro ⟨h1, h2⟩; exact ⟨Or.inr h1, h2⟩
      · rintro ⟨h1 | h1, h2⟩
        · exact absurd h1 h2
        · exact ⟨h1, h2⟩
    · simp only [send_loop, ne_eq, h, not_false_eq_true, if_true, List.mem_cons, ih,
        List.map_cons]
      constructor
      · rintro (h1 | ⟨h1, h2⟩)
        · exact ⟨Or.inl h1, by rw [h1]; exact h⟩
        · exact ⟨Or.inr h1, h2⟩
      · rintro ⟨h1 | h1, h2⟩
        · exact Or.inl h1
        · exact Or.inr ⟨h1, h2⟩

theorem send_loop_all (sender_fd : Int) (l : List t_client)
    (h : sender_fd ∉ l.map (fun c => c.fd)) : send_loop sender_fd l = l.map (fun c => c.fd) := by
  induction l with
  | nil => rfl
  | cons c rest ih =>
    simp only [List.map_cons, List.mem_cons, not_or] at h
    have hc : c.fd ≠ sender_fd := fun e => h.1 e.symm
    simp only [send_loop, ne_eq, hc, not_false_eq_true, if_true, List.map_cons, ih h.2]

theorem digits_bytes (n : Nat) : ∀ x ∈ digits n, 48 ≤ x ∧ x ≤ 57 := by
  have hd : ∀ d, d < 10 → 48 ≤ (Nat.digitChar d).toNat ∧ (Nat.digitChar d).toNat ≤ 57 := by
    decide
  have core : ∀ (fuel m : Nat) (ds : List Char),
      (∀ c ∈ ds, 48 ≤ c.toNat ∧ c.toNat ≤ 57) →
      ∀ c ∈ Nat.toDigitsCore 10 fuel m ds, 48 ≤ c.toNat ∧ c.toNat ≤ 57 := by
    intro fuel
    induction fuel with
    | zero => intro m ds h; simpa [Nat.toDigitsCore] using h
    | succ fuel ih =>
      intro m ds h
      have hds : ∀ c ∈ Nat.digitChar (m % 10) :: ds, 48 ≤ c.toNat ∧ c.toNat ≤ 57 := by
        intro c hc
        rcases List.mem_cons.1 hc with rfl | hc
        · exact hd _ (Nat.mod_lt _ (by decide))
        · exact h c hc
      simp only [Nat.toDigitsCore]
      split
      · exact hds
      · exact ih _ _ hds
  intro x hx
  obtain ⟨c, hc, rfl⟩ := List.mem_map.1 hx
  exact core _ _ [] (by simp) c hc

theorem fmt_d_bytes (n : Int) : ∀ x ∈ fmt_d n, x ≠ 0 ∧ x ≠ 10 := by
  intro x hx
  unfold fmt_d at hx
  split at hx
  · rcases List.mem_cons.1 hx with rfl | hx
    · decide
    · have := digits_bytes _ x hx
      omega
  · have := digits_bytes _ x hx
    omega

theorem cstr_set_newline (pre rest : List Nat) (h0 : 0 ∉ pre) :
    cstr ((pre ++ 10 :: rest).set pre.length 0) = pre := by
  have : (pre ++ 10 :: rest).set pre.length 0 = pre ++ 0 :: rest := by
    rw [List.set_append_right _ _ (le_refl _)]
    simp
  rw [this, cstr_append_nul pre rest h0]

theorem line_loop_lines (s : Server) (client : t_client) :
    ∀ (fuel : Nat) (b : List Nat), 0 ∉ b → b.length < fuel →
      line_loop s client fuel b =
        ((complete_lines b).map (fun L =>
            send_to_all_except s client.fd (lit "client " ++ fmt_d client.id ++ lit ": " ++ L)),
          unterminated_tail b) := by
  intro fuel
  induction fuel with
  | zero => intro b _ hlen; omega
  | succ fuel ih =>
    intro b h0 hlen
    by_cases hn : 10 ∈ b
    · cases hs : strstr_newline b 0 with
      | none => exact absurd hn ((strstr_newline_none b 0 h0).1 hs)
      | some j =>
        obtain ⟨pre, rest, hB, hpre, hj⟩ := strstr_newline_some b 0 j h0 hs
        subst hB
        have hj2 : j = pre.length := by omega
        subst hj2
        have hpre0 : 0 ∉ pre := fun h => h0 (by simp [h])
        have hrest : 0 ∉ rest := fun h => h0 (by simp [h])
        have hlen2 : rest.length < fuel := by
          simp only [List.length_append, List.length_cons] at hlen; omega
        have hdrop : (pre ++ 10 :: rest).drop (pre.length + 1) = rest := by
          simp [List.drop_append_eq_append_drop]
        have hnl : lit "\n" = [10] := by decide
        simp only [line_loop, hs, hdrop, ih rest hrest hlen2, cstr_set_newline pre rest hpre0,
          complete_lines_first pre rest hpre, unterminated_tail_first pre rest hpre,
          List.map_cons, hnl, List.append_assoc]
    · have hs := (strstr_newline_none b 0 h0).2 hn
      simp only [line_loop, hs, complete_lines_no_newline b hn,
        unterminated_tail_no_newline b hn, List.map_nil]

/-- The data path of `handle_client_message`: its broadcasts and the state it leaves. -/
theorem handle_client_message_data (s : Server) (client : t_client) (bytes_read : Int)
    (received : List Nat) (hpos : 0 < bytes_read) :
    handle_client_message s client bytes_read received =
      ({ s with clients := (set_msg client.fd
            (unterminated_tail (cstr client.msg ++ cstr (received.take bytes_read.toNat ++ [0])))
            s.clients) },
        (complete_lines (cstr client.msg ++ cstr (received.take bytes_read.toNat ++ [0]))).map
          (fun L => send_to_all_except s client.fd
            (lit "client " ++ fmt_d client.id ++ lit ": " ++ L))) := by
  have hneg : ¬ bytes_read ≤ 0 := by omega
  have h0 : 0 ∉ cstr client.msg ++ cstr (received.take bytes_read.toNat ++ [0]) := by
    simp only [List.mem_append, not_or]
    exact ⟨nul_free_cstr _, nul_free_cstr _⟩
  have ht0 := unterminated_tail_nul_free _ h0
  simp only [handle_client_message, hneg, if_false, strcat,
    line_loop_lines s client _ _ h0 (Nat.lt_succ_self _), strlen, strcpy,
    cstr_of_nul_free _ ht0]
  congr 2
  by_cases he : unterminated_tail
      (cstr client.msg ++ cstr (received.take bytes_read.toNat ++ [0])) = []
  · simp [he]
  · have : 0 < (unterminated_tail
        (cstr client.msg ++ cstr (received.take bytes_read.toNat ++ [0]))).length :=
      List.length_pos.mpr he
    simp [this]

end MiniServ

namespace MiniServ

theorem split_lines_shape (acc b : List Nat) (h : 10 ∉ acc) :
    ∀ L ∈ (split_lines acc b).1, ∃ pre, L = pre ++ [10] ∧ 10 ∉ pre := by
  induction b generalizing acc with
  | nil => intro L hL; simp [split_lines] at hL
  | cons c rest ih =>
    by_cases hc : c = 10
    · simp only [split_lines, hc, if_true, List.mem_cons]
      rintro L (rfl | hL)
      · exact ⟨acc, rfl, h⟩
      · exact ih [] (by simp) L hL
    · simp only [split_lines, hc, if_false]
      apply ih
      simp only [List.mem_append, List.mem_singleton, not_or]
      exact ⟨h, fun e => hc e.symm⟩

theorem complete_lines_shape (b : List Nat) :
    ∀ L ∈ complete_lines b, ∃ pre, L = pre ++ [10] ∧ 10 ∉ pre :=
  split_lines_shape [] b (by simp)

theorem chat_text_one_newline (id : Int) (pre : List Nat) (h : 10 ∉ pre) :
    (lit "client " ++ fmt_d id ++ lit ": " ++ (pre ++ [10])).count 10 = 1 ∧
    (lit "client " ++ fmt_d id ++ lit ": " ++ (pre ++ [10])).getLast? = some 10 := by
  have h1 : (lit "client ").count 10 = 0 := by decide
  have h2 : (fmt_d id).count 10 = 0 :=
    List.count_eq_zero.2 (fun hm => (fmt_d_bytes id 10 hm).2 rfl)
  have h3 : (lit ": ").count 10 = 0 := by decide
  have h4 : pre.count 10 = 0 := List.count_eq_zero.2 h
  constructor
  · simp only [List.count_append, h1, h2, h3, h4]
    rfl
  · rw [← List.append_assoc, List.getLast?_append]
    simp

/-- C2, where the code departs from it. In `mini_serv.c` the departure notice
is sent with `send_to_all`, before `remove_client`: when `recv` answers a value
`<= 0` on a registered client (whose handle is not -1), the one broadcast of
`handle_client_message` calls `send` on that client's own handle. So it does
after two clients connected on handles 4 and 5 and the second one closes. -/
theorem departure_notice_reaches_departing_client :
    (∀ (s : Server) (client : t_client) (bytes_read : Int) (received : List Nat),
      bytes_read ≤ 0 → client ∈ s.clients → client.fd ≠ -1 →
      ∃ b, (handle_client_message s client bytes_read received).2 = [b] ∧
        client.fd ∈ b.sent_to) ∧
    (run (init 3) [Event.accept 4, Event.accept 5, Event.recv 5 0 []]).map (fun r => r.2) =
      some [[{ sender_fd := 4, message := lit "server: client 0 just arrived\n", sent_to := [] }],
            [{ sender_fd := 5, message := lit "server: client 1 just arrived\n", sent_to := [4] }],
            [{ sender_fd := -1, message := lit "server: client 1 just left\n",
               sent_to := [5, 4] }]] := by
  constructor
  · intro s client bytes_read received h hc hfd
    refine ⟨notify_departure s client.id, by simp only [handle_client_message, h, if_true], ?_⟩
    show client.fd ∈ send_loop (-1) s.clients
    rw [mem_send_loop]
    exact ⟨List.mem_map_of_mem _ hc, hfd⟩
  · decide

/-- The part of C2 the code keeps: neither the arrival notice of a connection
nor the chat lines read from it are sent to its own handle. -/
theorem own_arrival_and_lines_not_sent_back :
    (∀ (s : Server) (client_fd : Int) (r : Server × List Broadcast),
      accept_new_client s client_fd = some r → ∀ b ∈ r.2, client_fd ∉ b.sent_to) ∧
    (∀ (s : Server) (client : t_client) (bytes_read : Int) (received : List Nat),
      0 < bytes_read →
      ∀ b ∈ (handle_client_message s client bytes_read received).2, client.fd ∉ b.sent_to) := by
  constructor
  · intro s client_fd r hr b hb
    by_cases hfd : client_fd = -1
    · subst hfd
      rw [accept_new_client_fail] at hr
      simp only [Option.some.injEq] at hr
      subst hr
      simp at hb
    · rw [accept_new_client_ok s client_fd hfd] at hr
      simp only [Option.some.injEq] at hr
      subst hr
      simp only [List.mem_singleton] at hb
      subst hb
      intro hm
      exact ((mem_send_loop client_fd client_fd _).1 hm).2 rfl
  · intro s client bytes_read received hpos b hb
    rw [handle_client_message_data s client bytes_read received hpos] at hb
    simp only [List.mem_map] at hb
    obtain ⟨L, -, rfl⟩ := hb
    intro hm
    exact ((mem_send_loop client.fd client.fd _).1 hm).2 rfl

end MiniServ

/-! ## mini_serv.c: arrival notices -/

namespace MiniServ

theorem run_accepts (fds : List Int) :
    ∀ (s : Server) (n : Nat), s.next_id = (n : Int) → n + fds.length < 2147483648 →
      (∀ fd ∈ fds, fd ≠ -1) → fds.Nodup → (∀ fd ∈ fds, fd ∉ s.clients.map (fun c => c.fd)) →
      ∃ s2 logs, run s (fds.map Event.accept) = some (s2, logs) ∧
        logs.length = fds.length ∧
        ∀ (k : Nat) (fd : Int), fds[k]? = some fd →
          logs[k]? = some [{ sender_fd := fd
                             message := lit "server: client " ++ fmt_d ((n + k : Nat) : Int) ++
                               lit " just arrived\n"
                             sent_to := (fds.take k).reverse ++ s.clients.map (fun c => c.fd) }] := by
  induction fds with
  | nil =>
    intro s n _ _ _ _ _
    exact ⟨s, [], rfl, rfl, by simp⟩
  | cons fd rest ih =>
    intro s n hnext hlen hok hnd hfresh
    have hfd : fd ≠ -1 := hok fd (List.mem_cons_self _ _)
    have hnd2 := List.nodup_cons.1 hnd
    have hcur : fd ∉ s.clients.map (fun c => c.fd) := hfresh fd (List.mem_cons_self _ _)
    have hnext2 : (add_client s fd).next_id = ((n + 1 : Nat) : Int) := by
      show int32 (s.next_id + 1) = ((n + 1 : Nat) : Int)
      simp only [List.length_cons] at hlen
      rw [hnext, int32_of_small _ (by omega) (by omega)]
      push_cast
      rfl
    have hclients : (add_client s fd).clients.map (fun c => c.fd) =
        fd :: s.clients.map (fun c => c.fd) := rfl
    obtain ⟨s2, logs, hr, hl, hk⟩ := ih (add_client s fd) (n + 1) hnext2
      (by simp only [List.length_cons] at hlen; omega)
      (fun x hx => hok x (List.mem_cons_of_mem _ hx)) hnd2.2
      (by
        intro x hx
        rw [hclients, List.mem_cons, not_or]
        exact ⟨fun e => hnd2.1 (e ▸ hx), hfresh x (List.mem_cons_of_mem _ hx)⟩)
    have hsend : send_to_all_except (add_client s fd) fd
        (lit "server: client " ++ fmt_d s.next_id ++ lit " just arrived\n") =
        { sender_fd := fd
          message := lit "server: client " ++ fmt_d ((n + 0 : Nat) : Int) ++
            lit " just arrived\n"
          sent_to := s.clients.map (fun c => c.fd) } := by
      simp only [send_to_all_except, add_client, send_loop, ne_eq, not_true_eq_false, if_false,
        send_loop_all fd s.clients hcur, hnext, Nat.add_zero]
    refine ⟨s2, [send_to_all_except (add_client s fd) fd
      (lit "server: client " ++ fmt_d s.next_id ++ lit " just arrived\n")] :: logs, ?_,
      by simp [hl], ?_⟩
    · simp only [List.map_cons, run, step, accept_new_client_ok s fd hfd, hr, Option.map_some']
    · intro k x hx
      cases k with
      | zero =>
        simp only [List.getElem?_cons_zero, Option.some.injEq] at hx
        subst hx
        simp only [List.getElem?_cons_zero, hsend, List.take_zero, List.reverse_nil,
          List.nil_append]
      | succ k =>
        simp only [List.getElem?_cons_succ] at hx
        have := hk k x hx
        simp only [List.getElem?_cons_succ, this, hclients, List.take_succ_cons,
          List.reverse_cons, List.append_assoc, List.singleton_append]
        have e : n + 1 + k = n + (k + 1) := by omega
        rw [e]

theorem length_lt_of_handles (server_fd : Int) (fds : List Int) (hnd : fds.Nodup)
    (hs : 0 ≤ server_fd ∧ server_fd < 2147483648)
    (h : ∀ fd ∈ fds, 0 ≤ fd ∧ fd < 2147483648 ∧ fd ≠ server_fd) :
    fds.length < 2147483648 := by
  have hnd2 : (server_fd :: fds).Nodup :=
    List.nodup_cons.2 ⟨fun hm => (h _ hm).2.2 rfl, hnd⟩
  have hall : ∀ fd ∈ server_fd :: fds, 0 ≤ fd ∧ fd < 2147483648 := by
    intro fd hfd
    rcases List.mem_cons.1 hfd with rfl | hfd
    · exact hs
    · exact ⟨(h fd hfd).1, (h fd hfd).2.1⟩
  have hinj : ((server_fd :: fds).map Int.toNat).Nodup := by
    refine List.Nodup.map_on ?_ hnd2
    intro x hx y hy hxy
    have := (hall x hx).1
    have := (hall y hy).1
    omega
  have hsub : ((server_fd :: fds).map Int.toNat).toFinset ⊆ Finset.range 2147483648 := by
    intro x hx
    simp only [List.mem_toFinset, List.mem_map] at hx
    obtain ⟨y, hy, rfl⟩ := hx
    have := hall y hy
    simp only [Finset.mem_range]
    omega
  have hcard := Finset.card_le_card hsub
  rw [List.toFinset_card_of_nodup hinj, Finset.card_range] at hcard
  simp only [List.length_map, List.length_cons] at hcard
  omega

/-- C6. Arrival notices of `mini_serv.c`. From the initial state, accept `n`
clients on pairwise distinct handles (non-negative `int`s other than the
listening handle), nobody leaving. Every accept is handled; the `k`-th one
(from 0) creates the node with `id = k` and makes exactly one broadcast, of
the text `"server: client k just arrived\n"`, whose `send` calls go once to
each of the `k` handles accepted before and to no other handle. -/
theorem arrival_notices (server_fd : Int) (fds : List Int) (hnd : fds.Nodup)
    (hs : 0 ≤ server_fd ∧ server_fd < 2147483648)
    (h : ∀ fd ∈ fds, 0 ≤ fd ∧ fd < 2147483648 ∧ fd ≠ server_fd) :
    ∃ s logs, run (init server_fd) (fds.map Event.accept) = some (s, logs) ∧
      logs.length = fds.length ∧
      assigned_ids (init server_fd) (fds.map Event.accept) =
        (List.range fds.length).map Int.ofNat ∧
      ∀ (k : Nat) (fd : Int), fds[k]? = some fd →
        logs[k]? = some [{ sender_fd := fd
                           message := lit "server: client " ++ fmt_d (k : Int) ++
                             lit " just arrived\n"
                           sent_to := (fds.take k).reverse }] ∧
        ((fds.take k).reverse).Nodup ∧ ((fds.take k).reverse).length = k ∧
        ∀ x, x ∈ (fds.take k).reverse ↔ ∃ j, j < k ∧ fds[j]? = some x := by
  have hlen := length_lt_of_handles server_fd fds hnd hs h
  have hok : ∀ fd ∈ fds, fd ≠ -1 := by
    intro fd hfd
    have := (h fd hfd).1
    omega
  obtain ⟨s, logs, hr, hl, hk⟩ := run_accepts fds (init server_fd) 0 rfl (by omega) hok hnd
    (by intro fd _; simp [init])
  have hacc : ∀ l : List Int, (∀ fd ∈ l, fd ≠ -1) → accepts (l.map Event.accept) = l.length := by
    intro l
    induction l with
    | nil => intro _; rfl
    | cons a l ih =>
      intro hl
      have ha : a ≠ -1 := hl a (List.mem_cons_self _ _)
      simp only [List.map_cons, accepts, ha, if_false, List.length_cons,
        ih (fun x hx => hl x (List.mem_cons_of_mem _ hx))]
  obtain ⟨s3, logs3, hr3, -, ha3⟩ := run_ids (fds.map Event.accept) (init server_fd) 0
    (ids_ok_init server_fd) (by rw [hacc fds hok]; omega)
  rw [hacc fds hok, ← List.range_eq_range'] at ha3
  refine ⟨s, logs, hr, hl, ha3, ?_⟩
  intro k fd hfd
  have hklt : k < fds.length := by
    by_contra hc
    rw [List.getElem?_eq_none (by omega)] at hfd
    exact absurd hfd (by simp)
  refine ⟨?_, ?_, ?_, ?_⟩
  · have := hk k fd hfd
    simpa [init] using this
  · exact List.nodup_reverse.2 (hnd.sublist (List.take_sublist _ _))
  · simp only [List.length_reverse, List.length_take]
    omega
  · intro x
    simp only [List.mem_reverse]
    constructor
    · intro hx
      obtain ⟨j, hjx⟩ := List.mem_iff_getElem?.1 hx
      rw [List.getElem?_take] at hjx
      by_cases hjk : j < k
      · simp only [hjk, if_true] at hjx
        exact ⟨j, hjk, hjx⟩
      · simp only [hjk, if_false] at hjx
        exact absurd hjx (by simp)
    · rintro ⟨j, hj, hjx⟩
      apply List.mem_iff_getElem?.2
      exact ⟨j, by rw [List.getElem?_take]; simp [hj, hjx]⟩

end MiniServ

/-! ## mini_serv.c: registry and watch set -/

namespace MiniServ

theorem find_in_none (fd : Int) (l : List t_client) :
    find_in fd l = none ↔ fd ∉ l.map (fun c => c.fd) := by
  induction l with
  | nil => simp [find_in]
  | cons c rest ih =>
    by_cases h : c.fd = fd
    · simp [find_in, h]
    · have h2 : ¬ fd = c.fd := fun e => h e.symm
      simp [find_in, h, h2, ih]

theorem unlink_fds (fd : Int) (l : List t_client) :
    (unlink fd l).map (fun c => c.fd) = (l.map (fun c => c.fd)).erase fd := by
  induction l with
  | nil => rfl
  | cons c rest ih =>
    by_cases h : c.fd = fd
    · simp [unlink, h]
    · simp only [unlink, h, if_false, List.map_cons, ih]
      rw [List.erase_cons_tail]
      simpa using h

theorem lockstep_of_reachable (server_fd : Int) (s : Server) (h : Reachable server_fd s) :
    lockstep server_fd s := by
  induction h with
  | init =>
    refine ⟨by simp [init], by simp [init], ?_⟩
    intro fd
    simp only [init, FD_ISSET, FD_SET, FD_ZERO, List.map_nil, List.not_mem_nil, or_false]
    by_cases hfd : fd = server_fd <;> simp [hfd]
  | add s fd _ hne hfind ih =>
    obtain ⟨h1, h2, h3⟩ := ih
    have hfresh : fd ∉ s.clients.map (fun c => c.fd) := (find_in_none fd s.clients).1 hfind
    have hmap : (add_client s fd).clients.map (fun c => c.fd) =
        fd :: s.clients.map (fun c => c.fd) := rfl
    refine ⟨?_, ?_, ?_⟩
    · rw [hmap]; exact List.nodup_cons.2 ⟨hfresh, h1⟩
    · rw [hmap, List.mem_cons, not_or]
      exact ⟨fun e => hne e.symm, h2⟩
    · intro x
      rw [hmap]
      have hx := h3 x
      simp only [add_client, FD_ISSET, FD_SET, List.mem_cons] at hx ⊢
      by_cases hxf : x = fd
      · simp [hxf]
      · simp only [hxf, if_false, false_or]
        exact hx
  | remove s client _ hmem ih =>
    obtain ⟨h1, h2, h3⟩ := ih
    have hcm : client.fd ∈ s.clients.map (fun c => c.fd) := List.mem_map_of_mem _ hmem
    have hcs : client.fd ≠ server_fd := fun e => h2 (e ▸ hcm)
    have hmap : (remove_client s client.fd).clients.map (fun c => c.fd) =
        (s.clients.map (fun c => c.fd)).erase client.fd := unlink_fds _ _
    refine ⟨?_, ?_, ?_⟩
    · rw [hmap]; exact h1.erase _
    · rw [hmap]
      exact fun hm => h2 (List.mem_of_mem_erase hm)
    · intro x
      rw [hmap, h1.mem_erase_iff]
      have hx := h3 x
      simp only [remove_client, FD_ISSET, FD_CLR] at hx ⊢
      by_cases hxf : x = client.fd
      · subst hxf
        simp [hcs]
      · simp only [hxf, if_false, ne_eq, not_false_eq_true, true_and]
        exact hx

/-- C9. Registry and watch set of `mini_serv.c` move in lockstep. In every
state reached from the initial one by `add_client` (on a handle that is not
registered and is not `server_fd`) and `remove_client` (on the handle of a
registered client): a handle is in `master_fds` exactly when it is `server_fd`
or exactly one node of `clients` has it; no node has `server_fd`; and
`remove_client` on a registered handle leaves, in one step, no node with that
handle and the handle out of `master_fds`. -/
theorem registry_watch_lockstep (server_fd : Int) (s : Server) (h : Reachable server_fd s) :
    (∀ fd, FD_ISSET fd s.master_fds = true ↔
      (fd = server_fd ∨ (s.clients.map (fun c => c.fd)).count fd = 1)) ∧
    (∀ c ∈ s.clients, c.fd ≠ server_fd) ∧
    (∀ client ∈ s.clients,
      FD_ISSET client.fd (remove_client s client.fd).master_fds = false ∧
      ∀ c ∈ (remove_client s client.fd).clients, c.fd ≠ client.fd) := by
  obtain ⟨h1, h2, h3⟩ := lockstep_of_reachable server_fd s h
  refine ⟨?_, ?_, ?_⟩
  · intro fd
    rw [h3 fd]
    constructor
    · rintro (hfd | hfd)
      · exact Or.inl hfd
      · exact Or.inr (List.count_eq_one_of_mem h1 hfd)
    · rintro (hfd | hfd)
      · exact Or.inl hfd
      · refine Or.inr (List.count_pos_iff.1 ?_)
        omega
  · intro c hc e
    exact h2 (e ▸ List.mem_map_of_mem _ hc)
  · intro client hmem
    constructor
    · simp [remove_client, FD_ISSET, FD_CLR]
    · intro c hc e
      have hm : c.fd ∈ (unlink client.fd s.clients).map (fun c => c.fd) :=
        List.mem_map_of_mem _ hc
      rw [unlink_fds, h1.mem_erase_iff] at hm
      exact hm.1 e

end MiniServ

/-! ## mini_serv_V2.c: recipients of a broadcast -/

namespace MiniServV2
open MiniServ

theorem same_sets_trans (a b c : Server) (h1 : same_sets a b) (h2 : same_sets b c) :
    same_sets a c :=
  ⟨h2.1.trans h1.1, h2.2.1.trans h1.2.1, h2.2.2.1.trans h1.2.2.1, h2.2.2.2.trans h1.2.2.2⟩

theorem same_sets_set_message_buffer (s : Server) (fd : Int) (x : Option (List Nat)) :
    same_sets s (set_message_buffer s fd x) :=
  ⟨rfl, rfl, rfl, rfl⟩

theorem same_sets_cleanup (s : Server) (fd : Int) : same_sets s (cleanup_client s fd) := by
  unfold cleanup_client
  cases hb : (s.client_list fd).message_buffer with
  | none => simp only [hb]; exact ⟨rfl, rfl, rfl, rfl⟩
  | some b => simp only [hb]; exact ⟨rfl, rfl, rfl, rfl⟩

theorem message_loop_same_sets (mem : Nat → Bool) (fd : Int) :
    ∀ (fuel k : Nat) (s : Server) (h : Handled),
      message_loop mem fd fuel k s = some h → same_sets s h.state := by
  intro fuel
  induction fuel with
  | zero =>
    intro k s h hh
    simp only [message_loop, Option.some.injEq] at hh
    subst hh
    exact ⟨rfl, rfl, rfl, rfl⟩
  | succ fuel ih =>
    intro k s h hh
    simp only [message_loop] at hh
    split at hh
    · simp only [Option.some.injEq] at hh
      subst hh
      exact ⟨rfl, rfl, rfl, rfl⟩
    · split at hh
      · exact absurd hh (by simp)
      · cases hr : message_loop mem fd fuel (k + 1)
            (set_message_buffer s fd
              (extract_complete_message (mem k) (s.client_list fd).message_buffer).buffer) with
        | none => rw [hr] at hh; exact absurd hh (by simp)
        | some h2 =>
          rw [hr] at hh
          simp only [Option.map_some', Option.some.injEq] at hh
          subst hh
          exact same_sets_trans _ _ _ (same_sets_set_message_buffer s fd _) (ih (k + 1) _ h2 hr)

theorem handle_client_message_same_sets (mem : Nat → Bool) (s : Server) (fd : Int)
    (bytes_received : Int) (received : List Nat) (h : Handled)
    (hh : handle_client_message mem s fd bytes_received received = some h) :
    same_sets s h.state := by
  unfold handle_client_message at hh
  split at hh
  · simp only [Option.some.injEq] at hh
    subst hh
    exact same_sets_cleanup s fd
  · exact same_sets_trans _ _ _ (same_sets_set_message_buffer s fd _)
      (message_loop_same_sets mem fd _ _ _ _ hh)

theorem handle_client_message_keeps_sets (mem : Nat → Bool) (s : Server) (fd : Int)
    (bytes_received : Int) (received : List Nat) (h : Handled)
    (hh : handle_client_message mem s fd bytes_received received = some h) :
    keeps_sets s h.state := by
  obtain ⟨h1, h2, h3, h4⟩ := handle_client_message_same_sets mem s fd bytes_received received h hh
  exact ⟨h1, h2, h3, le_of_eq h4.symm⟩

theorem handle_new_connection_keeps_sets (s : Server) (fd : Int) :
    keeps_sets s (handle_new_connection s fd).1 := by
  by_cases h : fd < 0
  · rw [handle_new_connection_fail s fd h]; exact ⟨rfl, rfl, rfl, le_refl _⟩
  · simp only [handle_new_connection, h, if_false, initialize_new_client, set_client]
    by_cases hh : fd > s.highest_fd
    · simp only [hh, if_true]; exact ⟨rfl, rfl, rfl, le_of_lt hh⟩
    · simp only [hh, if_false]; exact ⟨rfl, rfl, rfl, le_refl _⟩

theorem sent_to_nodup (s : Server) (sender_fd : Int) (message : List Nat) :
    (broadcast_to_all_except s sender_fd message).sent_to.Nodup := by
  simp only [broadcast_to_all_except, fd_range]
  apply List.Nodup.filter
  exact (List.nodup_range _).map (fun _ _ h => Int.ofNat.inj h)

theorem to_registered_in_pass (s s2 : Server) (readable writable : fd_set)
    (hreg : ∀ fd, registered s fd = true → 0 ≤ fd ∧ fd ≤ s.highest_fd ∧ writable fd = true)
    (hp : in_pass s readable writable s2) (sender_fd : Int) (message : List Nat) :
    to_registered s (broadcast_to_all_except s2 sender_fd message) := by
  obtain ⟨hw, hsrv, hhigh⟩ := hp
  intro fd
  rw [mem_sent_to, hw, hsrv]
  simp only [select_sets, FD_ISSET, Bool.and_eq_true]
  constructor
  · rintro ⟨-, -, ⟨hm, -⟩, hs, hx⟩
    refine ⟨?_, hx⟩
    simp only [registered, FD_ISSET, Bool.and_eq_true, decide_eq_true_eq]
    exact ⟨hm, hs⟩
  · rintro ⟨hr, hx⟩
    have := hreg fd hr
    simp only [registered, FD_ISSET, Bool.and_eq_true, decide_eq_true_eq] at hr
    exact ⟨this.1, le_trans this.2.1 hhigh, ⟨hr.1, this.2.2⟩, hr.2, hx⟩

theorem in_pass_of_keeps (s s2 s3 : Server) (readable writable : fd_set)
    (hp : in_pass s readable writable s2) (hk : keeps_sets s2 s3) :
    in_pass s readable writable s3 :=
  ⟨hk.1.trans hp.1, hk.2.2.1.trans hp.2.1, le_trans hp.2.2 hk.2.2.2⟩

theorem keeps_sets_of_same (s s2 : Server) (h : same_sets s s2) : keeps_sets s s2 :=
  ⟨h.1, h.2.1, h.2.2.1, le_of_eq h.2.2.2.symm⟩

theorem handle_new_connection_in_pass (s s2 : Server) (readable writable : fd_set)
    (hreg : ∀ fd, registered s fd = true → 0 ≤ fd ∧ fd ≤ s.highest_fd ∧ writable fd = true)
    (hp : in_pass s readable writable s2) (fd : Int) :
    in_pass s readable writable (handle_new_connection s2 fd).1 ∧
    ∀ b ∈ (handle_new_connection s2 fd).2, to_registered s b := by
  have hp2 := in_pass_of_keeps s s2 _ readable writable hp (handle_new_connection_keeps_sets s2 fd)
  refine ⟨hp2, ?_⟩
  by_cases h : fd < 0
  · rw [handle_new_connection_fail s2 fd h]
    intro b hb
    simp at hb
  · rw [handle_new_connection_sets s2 fd h]
    intro b hb
    simp only [List.mem_singleton] at hb
    subst hb
    exact to_registered_in_pass s _ readable writable hreg hp2 _ _

theorem message_loop_in_pass (s : Server) (readable writable : fd_set)
    (hreg : ∀ fd, registered s fd = true → 0 ≤ fd ∧ fd ≤ s.highest_fd ∧ writable fd = true)
    (mem : Nat → Bool) (fd : Int) :
    ∀ (fuel k : Nat) (s2 : Server) (h : Handled), in_pass s readable writable s2 →
      message_loop mem fd fuel k s2 = some h → ∀ b ∈ h.broadcasts, to_registered s b := by
  intro fuel
  induction fuel with
  | zero =>
    intro k s2 h _ hh
    simp only [message_loop, Option.some.injEq] at hh
    subst hh
    intro b hb
    simp at hb
  | succ fuel ih =>
    intro k s2 h hp hh
    simp only [message_loop] at hh
    split at hh
    · simp only [Option.some.injEq] at hh
      subst hh
      intro b hb
      simp at hb
    · split at hh
      · exact absurd hh (by simp)
      · rename_i m hm
        have hp2 := in_pass_of_keeps s s2 _ readable writable hp
          (keeps_sets_of_same _ _ (same_sets_set_message_buffer s2 fd
            (extract_complete_message (mem k) (s2.client_list fd).message_buffer).buffer))
        cases hr : message_loop mem fd fuel (k + 1)
            (set_message_buffer s2 fd
              (extract_complete_message (mem k) (s2.client_list fd).message_buffer).buffer) with
        | none => rw [hr] at hh; exact absurd hh (by simp)
        | some h2 =>
          rw [hr] at hh
          simp only [Option.map_some', Option.some.injEq] at hh
          subst hh
          intro b hb
          rcases List.mem_cons.1 hb with rfl | hb
          · exact to_registered_in_pass s _ readable writable hreg hp2 _ _
          · exact ih (k + 1) _ h2 hp2 hr b hb

theorem handle_client_message_in_pass (s s2 : Server) (readable writable : fd_set)
    (hreg : ∀ fd, registered s fd = true → 0 ≤ fd ∧ fd ≤ s.highest_fd ∧ writable fd = true)
    (hp : in_pass s readable writable s2) (mem : Nat → Bool) (fd bytes_received : Int)
    (received : List Nat) (h : Handled)
    (hh : handle_client_message mem s2 fd bytes_received received = some h) :
    in_pass s readable writable h.state ∧ ∀ b ∈ h.broadcasts, to_registered s b := by
  refine ⟨in_pass_of_keeps s s2 _ readable writable hp
    (handle_client_message_keeps_sets mem s2 fd bytes_received received h hh), ?_⟩
  unfold handle_client_message at hh
  split at hh
  · simp only [Option.some.injEq] at hh
    subst hh
    intro b hb
    simp only [List.mem_singleton] at hb
    subst hb
    exact to_registered_in_pass s _ readable writable hreg hp _ _
  · exact message_loop_in_pass s readable writable hreg mem fd _ _ _ h
      (in_pass_of_keeps s s2 _ readable writable hp
        (keeps_sets_of_same _ _ (same_sets_set_message_buffer s2 fd _))) hh

theorem dispatch_in_pass (s : Server) (e : Pass)
    (hreg : ∀ fd, registered s fd = true → 0 ≤ fd ∧ fd ≤ s.highest_fd ∧ e.writable fd = true) :
    ∀ (fuel : Nat) (fd : Int) (s2 : Server) (q : Server × List Broadcast),
      in_pass s e.readable e.writable s2 → dispatch e fuel fd s2 = some q →
      ∀ b ∈ q.2, to_registered s b := by
  intro fuel
  induction fuel with
  | zero =>
    intro fd s2 q _ hq
    simp only [dispatch, Option.some.injEq] at hq
    subst hq
    intro b hb
    simp at hb
  | succ fuel ih =>
    intro fd s2 q hp hq
    rw [dispatch] at hq
    split at hq
    · split at hq
      · exact ih _ _ _ hp hq
      · split at hq
        · obtain ⟨hp2, hb2⟩ := handle_new_connection_in_pass s s2 e.readable e.writable hreg hp
            e.accept_ret
          cases hd : dispatch e fuel (fd + 1) (handle_new_connection s2 e.accept_ret).1 with
          | none => simp only [hd, Option.map_none'] at hq; exact absurd hq (by simp)
          | some q2 =>
            simp only [hd, Option.map_some', Option.some.injEq] at hq
            subst hq
            intro b hb
            rcases List.mem_append.1 hb with hb | hb
            · exact hb2 b hb
            · exact ih _ _ q2 hp2 hd b hb
        · cases hh : handle_client_message (e.mem fd) s2 fd (e.recv_ret fd) (e.recv_data fd) with
          | none => simp only [hh] at hq; exact absurd hq (by simp)
          | some h =>
            obtain ⟨hp2, hb2⟩ := handle_client_message_in_pass s s2 e.readable e.writable hreg hp
              (e.mem fd) fd (e.recv_ret fd) (e.recv_data fd) h hh
            simp only [hh] at hq
            cases hd : dispatch e fuel (fd + 1) h.state with
            | none => simp only [hd, Option.map_none'] at hq; exact absurd hq (by simp)
            | some q2 =>
              simp only [hd, Option.map_some', Option.some.injEq] at hq
              subst hq
              intro b hb
              rcases List.mem_append.1 hb with hb | hb
              · exact hb2 b hb
              · exact ih _ _ q2 hp2 hd b hb
    · simp only [Option.some.injEq] at hq
      subst hq
      intro b hb
      simp at hb

theorem main_pass_to_registered (s : Server) (e : Pass)
    (hreg : ∀ fd, registered s fd = true → 0 ≤ fd ∧ fd ≤ s.highest_fd ∧ e.writable fd = true)
    (q : Server × List Broadcast) (hq : main_pass e s = some q) :
    ∀ b ∈ q.2, to_registered s b := by
  unfold main_pass at hq
  simp only at hq
  split at hq
  · simp only [Option.some.injEq] at hq
    subst hq
    intro b hb
    simp at hb
  · exact dispatch_in_pass s e hreg _ _ _ q ⟨rfl, rfl, le_refl _⟩ hq

/-- C8 as stated fails. In the pass in which a connection is accepted on handle
5 while the client of handle 4 has a line to read, the line of client 4 is
broadcast to nobody, though handle 5 is registered when
`broadcast_to_all_except` is called. In the pass in which the client of handle 4
closes and the client of handle 5 has a line to read, that line is written to
handle 4, which `cleanup_client` retired before the call. In both passes every
client socket is writable. -/
theorem broadcast_recipients_not_the_registered_handles :
    ((main_pass pass_accept_and_data one_client).map (fun r => r.2) =
        some [{ sender_fd := 5, message := lit "server: client 1 just arrived\n", sent_to := [4] },
              { sender_fd := 4, message := lit "client 0: hi\n", sent_to := [] }] ∧
      ¬ (∀ fd, fd ∈ (broadcast_to_all_except
            (handle_new_connection (select_sets one_client pass_accept_and_data.readable
              pass_accept_and_data.writable) 5).1 4 (lit "client 0: hi\n")).sent_to ↔
          (registered (handle_new_connection (select_sets one_client
              pass_accept_and_data.readable pass_accept_and_data.writable) 5).1 fd = true ∧
            fd ≠ 4))) ∧
    ((main_pass pass_close_and_data two_clients).map (fun r => r.2) =
        some [{ sender_fd := 4, message := lit "server: client 0 just left\n", sent_to := [5] },
              { sender_fd := 5, message := lit "client 1: hi\n", sent_to := [4] }] ∧
      ¬ (∀ fd, fd ∈ (broadcast_to_all_except
            (cleanup_client (select_sets two_clients pass_close_and_data.readable
              pass_close_and_data.writable) 4) 5 (lit "client 1: hi\n")).sent_to ↔
          (registered (cleanup_client (select_sets two_clients pass_close_and_data.readable
              pass_close_and_data.writable) 4) fd = true ∧ fd ≠ 5))) := by
  refine ⟨⟨by decide, ?_⟩, ⟨by decide, ?_⟩⟩
  · intro h
    have h5 := (h 5).2 ⟨by decide, by decide⟩
    revert h5
    decide
  · intro h
    have h4 := ((h 4).1 (by decide)).1
    revert h4
    decide

/-- C8, amended. A call of `broadcast_to_all_except` writes, once each, to
exactly the handles of `0 .. highest_fd` that are in `write_set`, other than
`server_socket` and the excluded handle. `write_set` is the answer of `select`
at the start of the pass: `handle_new_connection` and `handle_client_message`
leave it, and `server_socket`, as they are and do not lower `highest_fd`. So
when every handle registered at the start of a pass is within
`0 .. highest_fd` and writable, every broadcast made during the pass goes to
exactly the handles that were registered when the pass began, other than the
excluded one. -/
theorem broadcast_recipients :
    (∀ (s : Server) (sender_fd : Int) (message : List Nat),
      (broadcast_to_all_except s sender_fd message).sent_to.Nodup ∧
      ∀ fd, fd ∈ (broadcast_to_all_except s sender_fd message).sent_to ↔
        (0 ≤ fd ∧ fd ≤ s.highest_fd ∧ FD_ISSET fd s.write_set = true ∧
          fd ≠ s.server_socket ∧ fd ≠ sender_fd)) ∧
    (∀ (s : Server) (new_client_fd : Int),
      (handle_new_connection s new_client_fd).1.write_set = s.write_set ∧
      (handle_new_connection s new_client_fd).1.server_socket = s.server_socket ∧
      s.highest_fd ≤ (handle_new_connection s new_client_fd).1.highest_fd) ∧
    (∀ (mem : Nat → Bool) (s : Server) (client_fd bytes_received : Int) (received : List Nat)
      (r : Handled), handle_client_message mem s client_fd bytes_received received = some r →
      r.state.write_set = s.write_set ∧ r.state.server_socket = s.server_socket ∧
      s.highest_fd ≤ r.state.highest_fd) ∧
    (∀ (s : Server) (e : Pass) (q : Server × List Broadcast),
      (∀ fd, registered s fd = true → 0 ≤ fd ∧ fd ≤ s.highest_fd ∧ e.writable fd = true) →
      main_pass e s = some q →
      ∀ b ∈ q.2, ∀ fd, fd ∈ b.sent_to ↔ (registered s fd = true ∧ fd ≠ b.sender_fd)) := by
  refine ⟨fun s sender_fd message => ⟨sent_to_nodup s sender_fd message,
      fun fd => mem_sent_to s sender_fd message fd⟩,
    fun s fd => ⟨(handle_new_connection_keeps_sets s fd).1,
      (handle_new_connection_keeps_sets s fd).2.2.1, (handle_new_connection_keeps_sets s fd).2.2.2⟩,
    fun mem s fd n received r hr =>
      ⟨(handle_client_message_keeps_sets mem s fd n received r hr).1,
        (handle_client_message_keeps_sets mem s fd n received r hr).2.2.1,
        (handle_client_message_keeps_sets mem s fd n received r hr).2.2.2⟩,
    ?_⟩
  intro s e q hreg hq b hb
  exact main_pass_to_registered s e hreg q hq b hb

end MiniServV2

/-! ## mini_serv_V2.c: the loops end within their bounds -/

namespace MiniServV2
open MiniServ

theorem strstr_newline_rest (b : List Nat) (i k : Nat) (h : strstr_newline b i = some k) :
    ∃ j, k = i + j ∧ (cstr (b.drop (j + 1))).length + j + 1 = (cstr b).length := by
  induction b generalizing i with
  | nil => simp [strstr_newline] at h
  | cons c rest ih =>
    by_cases hc : c = 0
    · simp [strstr_newline, hc] at h
    · by_cases hn : c = 10
      · subst hn
        simp [strstr_newline] at h
        exact ⟨0, by omega, by simp [cstr]⟩
      · simp only [strstr_newline, hc, hn, if_false] at h
        obtain ⟨j, hj, hl⟩ := ih (i + 1) h
        refine ⟨j + 1, by omega, ?_⟩
        simp only [List.drop_succ_cons, cstr, hc, if_false, List.length_cons]
        omega

theorem extract_shortens (ok : Bool) (buffer : Option (List Nat)) (m : List Nat)
    (h : (extract_complete_message ok buffer).extracted_message = some m) :
    buffer_length (extract_complete_message ok buffer).buffer < buffer_length buffer := by
  cases buffer with
  | none => simp [extract_complete_message] at h
  | some buf =>
    cases hs : strstr_newline buf 0 with
    | none => simp [extract_complete_message, scan_eq_v2, hs] at h
    | some k =>
      cases ok with
      | false => simp [extract_complete_message, scan_eq_v2, hs] at h
      | true =>
        obtain ⟨j, hj, hl⟩ := strstr_newline_rest buf 0 k hs
        have hk : k = j := by omega
        subst hk
        simp only [extract_complete_message, scan_eq_v2, hs, if_true, buffer_length, strlen,
          strcpy]
        have hcc : cstr (cstr (List.drop (k + 1) buf)) = cstr (List.drop (k + 1) buf) :=
          cstr_of_nul_free _ (nul_free_cstr _)
        rw [hcc]
        omega

/-- The loop of `handle_client_message` ends before its bound: one more
iteration allowed changes nothing, whatever the allocator answers. -/
theorem message_loop_fuel (mem : Nat → Bool) (fd : Int) :
    ∀ (fuel k : Nat) (s : Server),
      buffer_length (s.client_list fd).message_buffer < fuel →
      message_loop mem fd (fuel + 1) k s = message_loop mem fd fuel k s := by
  intro fuel
  induction fuel with
  | zero => intro k s h; omega
  | succ fuel ih =>
    intro k s h
    conv_lhs => rw [message_loop]
    conv_rhs => rw [message_loop]
    simp only
    split
    · rfl
    · cases hm : (extract_complete_message (mem k)
          (s.client_list fd).message_buffer).extracted_message with
      | none => rfl
      | some m =>
        have hlt := extract_shortens (mem k) (s.client_list fd).message_buffer m hm
        simp only
        rw [ih (k + 1) _ (by rw [set_message_buffer_same]; simp only; omega)]

theorem handle_new_connection_highest (s : Server) (fd : Int) :
    (handle_new_connection s fd).1.highest_fd ≤ max s.highest_fd fd := by
  by_cases h : fd < 0
  · rw [handle_new_connection_fail s fd h]; exact le_max_left _ _
  · simp only [handle_new_connection, h, if_false, initialize_new_client, set_client]
    by_cases hh : fd > s.highest_fd
    · simp only [hh, if_true]; exact le_max_right _ _
    · simp only [hh, if_false]; exact le_max_left _ _

/-- The loop of `main` over the handles ends before its bound: one more
iteration allowed changes nothing. -/
theorem dispatch_fuel (e : Pass) :
    ∀ (fuel : Nat) (fd : Int) (s : Server),
      (max s.highest_fd e.accept_ret + 1 - fd).toNat < fuel →
      dispatch e (fuel + 1) fd s = dispatch e fuel fd s := by
  intro fuel
  induction fuel with
  | zero => intro fd s h; omega
  | succ fuel ih =>
    intro fd s h
    conv_lhs => rw [dispatch]
    conv_rhs => rw [dispatch]
    by_cases hfd : fd ≤ s.highest_fd
    · have hmax : s.highest_fd ≤ max s.highest_fd e.accept_ret := le_max_left _ _
      have hstep : ∀ s2 : Server, s2.highest_fd ≤ max s.highest_fd e.accept_ret →
          (max s2.highest_fd e.accept_ret + 1 - (fd + 1)).toNat < fuel := by
        intro s2 h2
        have : max s2.highest_fd e.accept_ret ≤ max s.highest_fd e.accept_ret :=
          max_le h2 (le_max_right _ _)
        omega
      simp only [hfd, if_true]
      split
      · exact ih _ _ (hstep s (le_max_left _ _))
      · split
        · rw [ih _ _ (hstep _ (handle_new_connection_highest s e.accept_ret))]
        · cases hh : handle_client_message (e.mem fd) s fd (e.recv_ret fd) (e.recv_data fd) with
          | none => rfl
          | some r =>
            have hs := (handle_client_message_same_sets _ s fd _ _ r hh).2.2.2
            simp only
            rw [ih _ _ (hstep _ (by rw [hs]; exact le_max_left _ _))]
    · simp only [hfd, if_false]

end MiniServV2

/-! ## mini_serv_V2.c: a discarded partial line -/

namespace MiniServV2
open MiniServ

end MiniServV2

/-! ## Instances -/

namespace MiniServV2
open MiniServ

theorem registered_two_clients (fd : Int) (h : registered two_clients fd = true) :
    fd = 4 ∨ fd = 5 := by
  simp only [registered, two_clients, one_client, handle_new_connection, setup_server_socket,
    initialize_new_client, set_client, FD_ISSET, FD_SET, FD_ZERO, Bool.and_eq_true,
    decide_eq_true_eq] at h
  by_cases h5 : fd = 5
  · exact Or.inr h5
  · by_cases h4 : fd = 4
    · exact Or.inl h4
    · exfalso
      revert h
      simp [h5, h4, FD_SET, FD_ZERO]

/-- Witness of C8, amended: in the pass in which the client of handle 4 closes
and the client of handle 5 has a line to read, both broadcasts go to the
handles registered when the pass began, other than the excluded one. -/
theorem broadcast_recipients_witness :
    (∀ fd, registered two_clients fd = true →
      0 ≤ fd ∧ fd ≤ two_clients.highest_fd ∧ pass_close_and_data.writable fd = true) ∧
    (main_pass pass_close_and_data two_clients).map (fun r => r.2) =
      some [{ sender_fd := 4, message := lit "server: client 0 just left\n", sent_to := [5] },
            { sender_fd := 5, message := lit "client 1: hi\n", sent_to := [4] }] ∧
    ∀ q, main_pass pass_close_and_data two_clients = some q →
      ∀ b ∈ q.2, ∀ fd, fd ∈ b.sent_to ↔ (registered two_clients fd = true ∧ fd ≠ b.sender_fd) := by
  have hreg : ∀ fd, registered two_clients fd = true →
      0 ≤ fd ∧ fd ≤ two_clients.highest_fd ∧ pass_close_and_data.writable fd = true := by
    intro fd h
    have e : two_clients.highest_fd = 5 := by decide
    rw [e]
    rcases registered_two_clients fd h with rfl | rfl <;> exact ⟨by decide, by decide, rfl⟩
  exact ⟨hreg, by decide,
    fun q hq => broadcast_recipients.2.2.2 two_clients pass_close_and_data q hreg hq⟩

end MiniServV2

namespace MiniServ

/-- Witness of C6: three clients accepted on handles 4, 5 and 6. -/
theorem arrival_notices_witness :
    (run (init 3) ([4, 5, 6].map Event.accept)).map (fun r => r.2) =
      some [[{ sender_fd := 4, message := lit "server: client 0 just arrived\n", sent_to := [] }],
            [{ sender_fd := 5, message := lit "server: client 1 just arrived\n", sent_to := [4] }],
            [{ sender_fd := 6, message := lit "server: client 2 just arrived\n",
               sent_to := [5, 4] }]] ∧
    ∃ s logs, run (init 3) ([4, 5, 6].map Event.accept) = some (s, logs) ∧
      logs.length = 3 ∧
      assigned_ids (init 3) ([4, 5, 6].map Event.accept) = [0, 1, 2] := by
  refine ⟨by decide, ?_⟩
  obtain ⟨s, logs, hr, hl, ha, -⟩ :=
    arrival_notices 3 [4, 5, 6] (by decide) (by decide) (by decide)
  exact ⟨s, logs, hr, hl, ha⟩

/-- Witness of C9: clients connect on handles 4 and 5, then the first one is removed. -/
theorem registry_watch_lockstep_witness :
    Reachable 3 after_leave ∧
    FD_ISSET 3 after_leave.master_fds = true ∧ FD_ISSET 5 after_leave.master_fds = true ∧
    FD_ISSET 4 after_leave.master_fds = false ∧
    (∀ fd, FD_ISSET fd after_leave.master_fds = true ↔
      (fd = 3 ∨ (after_leave.clients.map (fun c => c.fd)).count fd = 1)) := by
  have hreach : Reachable 3 after_leave :=
    Reachable.remove _ { fd := 4, id := 0, msg := [] }
      (Reachable.add _ 5 (Reachable.add _ 4 Reachable.init (by decide) rfl) (by decide) rfl)
      (by decide)
  exact ⟨hreach, by decide, by decide, by decide, (registry_watch_lockstep 3 after_leave hreach).1⟩

end MiniServ

/-! ## mini_serv_V2.c: one feed -/

namespace MiniServV2
open MiniServ

end MiniServV2

/-! ## mini_serv.c: the accept step and the watch bound -/

namespace MiniServ

/-- C15. The accept step of `mini_serv.c` is all or nothing. When `accept`
answers -1, `accept_new_client` returns the state it was given and sends
nothing. When it answers a handle `h` (and `next_id`, a counter from 0, is
below `INT_MAX`), it returns with the one node `(fd = h, id = next_id, msg = "")`
put in front of the former list, which is otherwise kept; `next_id` is one
more; `master_fds` has `h` more; `max_fd` is the larger of `max_fd` and `h`;
and exactly one broadcast is made, the arrival text with the identifier just
given, `h` excluded. -/
theorem accept_atomic :
    (∀ s : Server, accept_new_client s (-1) = some (s, [])) ∧
    (∀ (s : Server) (h : Int), h ≠ -1 → 0 ≤ s.next_id → s.next_id < 2147483647 →
      ∃ s2 b, accept_new_client s h = some (s2, [b]) ∧
        s2.clients = { fd := h, id := s.next_id, msg := [] } :: s.clients ∧
        s2.next_id = s.next_id + 1 ∧
        (∀ fd, FD_ISSET fd s2.master_fds = (decide (fd = h) || FD_ISSET fd s.master_fds)) ∧
        s2.max_fd = max s.max_fd h ∧
        s2.server_fd = s.server_fd ∧
        b.message = lit "server: client " ++ fmt_d s.next_id ++ lit " just arrived\n" ∧
        b.sender_fd = h ∧ h ∉ b.sent_to ∧
        ∀ fd, fd ∈ b.sent_to ↔ (fd ∈ s.clients.map (fun c => c.fd) ∧ fd ≠ h)) := by
  refine ⟨accept_new_client_fail, ?_⟩
  intro s h hh h0 h1
  refine ⟨add_client s h, _, accept_new_client_ok s h hh, rfl, ?_, ?_, ?_, rfl, rfl, rfl, ?_, ?_⟩
  · show int32 (s.next_id + 1) = s.next_id + 1
    exact int32_of_small _ (by omega) (by omega)
  · intro fd
    simp only [add_client, FD_ISSET, FD_SET]
    by_cases hfd : fd = h <;> simp [hfd]
  · show (if h > s.max_fd then h else s.max_fd) = max s.max_fd h
    by_cases hm : h > s.max_fd
    · simp only [hm, if_true]; omega
    · simp only [hm, if_false]; omega
  · intro hm
    exact ((mem_send_loop h h _).1 hm).2 rfl
  · intro fd
    show fd ∈ send_loop h (add_client s h).clients ↔ _
    rw [mem_send_loop]
    simp only [add_client, List.map_cons, List.mem_cons]
    constructor
    · rintro ⟨h1 | h1, h2⟩
      · exact absurd h1 h2
      · exact ⟨h1, h2⟩
    · rintro ⟨h1, h2⟩
      exact ⟨Or.inr h1, h2⟩

/-- Witness of C15: a third connection is accepted on handle 6. -/
theorem accept_atomic_witness :
    (6 : Int) ≠ -1 ∧ 0 ≤ two_clients.next_id ∧ two_clients.next_id < 2147483647 ∧
    (accept_new_client two_clients 6).map (fun r => (r.1.clients, r.1.next_id, r.2)) =
      some ([{ fd := 6, id := 2, msg := [] }, { fd := 5, id := 1, msg := [] },
             { fd := 4, id := 0, msg := lit "he" }], 3,
            [{ sender_fd := 6, message := lit "server: client 2 just arrived\n",
               sent_to := [5, 4] }]) ∧
    ∃ s2 b, accept_new_client two_clients 6 = some (s2, [b]) ∧
      s2.clients = { fd := 6, id := two_clients.next_id, msg := [] } :: two_clients.clients ∧
      s2.next_id = two_clients.next_id + 1 := by
  refine ⟨by decide, by decide, by decide, by decide, ?_⟩
  obtain ⟨s2, b, h1, h2, h3, -⟩ := accept_atomic.2 two_clients 6 (by decide) (by decide)
    (by decide)
  exact ⟨s2, b, h1, h2, h3⟩

theorem step_total (s : Server) (e : Event) : ∃ r, step s e = some r := by
  cases e with
  | accept client_fd =>
    by_cases h : client_fd = -1
    · subst h; exact ⟨_, accept_new_client_fail s⟩
    · exact ⟨_, accept_new_client_ok s client_fd h⟩
  | recv fd bytes_read received =>
    cases hf : find_client s fd with
    | none => exact ⟨(s, []), by simp only [step, hf]⟩
    | some client =>
      exact ⟨handle_client_message s client bytes_read received, by simp only [step, hf]⟩

theorem handle_client_message_watch (s : Server) (client : t_client) (bytes_read : Int)
    (received : List Nat) :
    (handle_client_message s client bytes_read received).1.max_fd = s.max_fd ∧
    (handle_client_message s client bytes_read received).1.server_fd = s.server_fd ∧
    ∀ fd, FD_ISSET fd (handle_client_message s client bytes_read received).1.master_fds = true →
      FD_ISSET fd s.master_fds = true := by
  unfold handle_client_message
  by_cases h : bytes_read ≤ 0
  · simp only [h, if_true, remove_client]
    refine ⟨trivial, trivial, ?_⟩
    intro fd hfd
    simp only [FD_ISSET, FD_CLR] at hfd ⊢
    by_cases hx : fd = client.fd
    · simp [hx] at hfd
    · simpa [hx] using hfd
  · simp only [h, if_false]
    exact ⟨trivial, trivial, fun _ hfd => hfd⟩

theorem step_watch (s : Server) (e : Event) (r : Server × List Broadcast)
    (hr : step s e = some r) (hb : ∀ fd, FD_ISSET fd s.master_fds = true → fd ≤ s.max_fd) :
    s.max_fd ≤ r.1.max_fd ∧ r.1.server_fd = s.server_fd ∧
    ∀ fd, FD_ISSET fd r.1.master_fds = true → fd ≤ r.1.max_fd := by
  cases e with
  | accept client_fd =>
    by_cases h : client_fd = -1
    · subst h
      simp only [step, accept_new_client_fail, Option.some.injEq] at hr
      subst hr
      exact ⟨le_refl _, rfl, hb⟩
    · simp only [step, accept_new_client_ok s client_fd h, Option.some.injEq] at hr
      subst hr
      simp only [add_client]
      refine ⟨?_, trivial, ?_⟩
      · by_cases hm : client_fd > s.max_fd
        · simp only [hm, if_true]; omega
        · simp only [hm, if_false]; omega
      · intro fd hfd
        simp only [FD_ISSET, FD_SET] at hfd
        by_cases hx : fd = client_fd
        · subst hx
          by_cases hm : fd > s.max_fd
          · simp only [hm, if_true]; omega
          · simp only [hm, if_false]; omega
        · simp only [hx, if_false] at hfd
          have := hb fd hfd
          by_cases hm : client_fd > s.max_fd
          · simp only [hm, if_true]; omega
          · simp only [hm, if_false]; omega
  | recv fd bytes_read received =>
    cases hf : find_client s fd with
    | none =>
      simp only [step, hf, Option.some.injEq] at hr
      subst hr
      exact ⟨le_refl _, rfl, hb⟩
    | some client =>
      simp only [step, hf, Option.some.injEq] at hr
      subst hr
      obtain ⟨h1, h2, h3⟩ := handle_client_message_watch s client bytes_read received
      refine ⟨le_of_eq h1.symm, h2, ?_⟩
      intro x hx
      rw [h1]
      exact hb x (h3 x hx)

theorem run_watch (es : List Event) :
    ∀ s : Server, (∀ fd, FD_ISSET fd s.master_fds = true → fd ≤ s.max_fd) →
      ∃ s2 logs, run s es = some (s2, logs) ∧ s.max_fd ≤ s2.max_fd ∧
        s2.server_fd = s.server_fd ∧
        ∀ fd, FD_ISSET fd s2.master_fds = true → fd ≤ s2.max_fd := by
  induction es with
  | nil => intro s hb; exact ⟨s, [], rfl, le_refl _, rfl, hb⟩
  | cons e es ih =>
    intro s hb
    obtain ⟨r, hr⟩ := step_total s e
    obtain ⟨h1, h2, h3⟩ := step_watch s e r hr hb
    obtain ⟨s2, logs, hrun, g1, g2, g3⟩ := ih r.1 h3
    exact ⟨s2, r.2 :: logs, by simp only [run, hr, hrun, Option.map_some'],
      le_trans h1 g1, g2.trans h2, g3⟩

/-- C18. The watch bound of `mini_serv.c`. Every sequence of events (accepts,
data reads, disconnections) is handled to the end from the initial state,
where `max_fd = server_fd`; in the state reached every handle of `master_fds`
is at most `max_fd`, so that `select(max_fd + 1, ...)` covers it, and so is
`server_fd`; and no event handled in such a state lowers `max_fd`. -/
theorem watch_bound (server_fd : Int) (es : List Event) :
    ∃ s logs, run (init server_fd) es = some (s, logs) ∧
      (∀ fd, FD_ISSET fd s.master_fds = true → fd ≤ s.max_fd) ∧
      server_fd ≤ s.max_fd ∧
      ∀ (e : Event), ∃ r, step s e = some r ∧ s.max_fd ≤ r.1.max_fd := by
  have hinit : ∀ fd, FD_ISSET fd (init server_fd).master_fds = true →
      fd ≤ (init server_fd).max_fd := by
    intro fd hfd
    simp only [init, FD_ISSET, FD_SET, FD_ZERO] at hfd ⊢
    by_cases hx : fd = server_fd
    · omega
    · simp [hx] at hfd
  obtain ⟨s, logs, hrun, h1, h2, h3⟩ := run_watch es (init server_fd) hinit
  refine ⟨s, logs, hrun, h3, h1, ?_⟩
  intro e
  obtain ⟨r, hr⟩ := step_total s e
  exact ⟨r, hr, (step_watch s e r hr h3).1⟩

end MiniServ

/-! ## The two framings agree -/

namespace MiniServ

theorem find_in_set_msg (fd : Int) (msg : List Nat) (l : List t_client) :
    find_in fd (set_msg fd msg l) = (find_in fd l).map (fun c => { c with msg := msg }) := by
  induction l with
  | nil => rfl
  | cons c rest ih =>
    by_cases h : c.fd = fd
    · simp [set_msg, find_in, h]
    · simp [set_msg, find_in, h, ih]

theorem line_nul_free (b : List Nat) (h0 : 0 ∉ b) : ∀ L ∈ complete_lines b, 0 ∉ L :=
  (split_lines_sublists [] b (by simp) h0).1

/-- C17. The two implementations frame alike. A connection has the pending
bytes `P` without NUL: in `mini_serv.c` it is a node of `clients` with
`msg = P`, in `mini_serv_V2.c` a handle whose `message_buffer` holds `P` (`NULL`
read as empty), with the same identifier. On a non-empty chunk `R` without
NUL (allocations succeeding) both calls of `handle_client_message` return, the
texts they broadcast are the same, in the same order, and the pending bytes
they leave are the same. -/
theorem framing_equivalence (sA : Server) (client : t_client) (sB : MiniServV2.Server)
    (fd : Int) (R : List Nat) (hR : R ≠ []) (h0 : 0 ∉ R) (hP : 0 ∉ client.msg)
    (hfind : find_client sA client.fd = some client)
    (hpending : ((sB.client_list fd).message_buffer).getD [] = client.msg)
    (hid : (sB.client_list fd).client_id = client.id) :
    ∃ r, MiniServV2.handle_client_message MiniServV2.mem_ok sB fd R.length R = some r ∧
      (handle_client_message sA client R.length R).2.map (fun b => b.message) =
        r.broadcasts.map (fun b => b.message) ∧
      (find_client (handle_client_message sA client R.length R).1 client.fd).map
          (fun c => c.msg) =
        some (((r.state.client_list fd).message_buffer).getD []) ∧
      (handle_client_message sA client R.length R).2.map (fun b => b.message) =
        (complete_lines (client.msg ++ R)).map
          (fun L => lit "client " ++ fmt_d client.id ++ lit ": " ++ L) ∧
      ((r.state.client_list fd).message_buffer).getD [] = unterminated_tail (client.msg ++ R) := by
  have hpos : (0 : Int) < R.length := by
    have : 0 < R.length := List.length_pos.mpr hR
    omega
  have hA := handle_client_message_data sA client R.length R hpos
  have htake : List.take (R.length : Int).toNat R = R := by simp
  rw [htake, cstr_of_nul_free _ hP, cstr_append_nul R [] h0] at hA
  have hB := MiniServV2.handle_client_message_lines MiniServV2.mem_ok (fun _ => rfl) sB fd R hR h0
    (by rw [hpending]; exact hP)
  rw [hpending] at hB
  have hnul : 0 ∉ client.msg ++ R := by
    simp only [List.mem_append, not_or]; exact ⟨hP, h0⟩
  have htexts : (handle_client_message sA client R.length R).2.map (fun b => b.message) =
      (complete_lines (client.msg ++ R)).map
        (fun L => lit "client " ++ fmt_d client.id ++ lit ": " ++ L) := by
    rw [hA]
    simp only [List.map_map]
    apply List.map_congr_left
    intro L _
    rfl
  refine ⟨_, hB, ?_, ?_, htexts, ?_⟩
  · rw [htexts]
    simp only [List.map_map]
    apply List.map_congr_left
    intro L hL
    simp only [Function.comp, MiniServV2.broadcast_client_message,
      MiniServV2.broadcast_to_all_except, hid, cstr_of_nul_free L (line_nul_free _ hnul L hL)]
  · rw [hA]
    simp only [find_client, find_in_set_msg, MiniServV2.set_message_buffer_same,
      Option.getD_some]
    have hf : find_in client.fd sA.clients = some client := hfind
    rw [hf]
    rfl
  · simp only [MiniServV2.set_message_buffer_same, Option.getD_some]

/-- Witness of C17: `"he"` is pending for client 0 in both servers, which read `"llo\nyo\nx"`. -/
theorem framing_equivalence_witness :
    (handle_client_message two_clients { fd := 4, id := 0, msg := lit "he" } 9
        (lit "llo\nyo\nx")).2.map (fun b => b.message) =
      [lit "client 0: hello\n", lit "client 0: yo\n"] ∧
    ∃ r, MiniServV2.handle_client_message MiniServV2.mem_ok
        (MiniServV2.set_message_buffer MiniServV2.two_clients 4 (some (lit "he"))) 4
        ((lit "llo\nyo\nx").length : Int) (lit "llo\nyo\nx") = some r ∧
      (handle_client_message two_clients { fd := 4, id := 0, msg := lit "he" }
          ((lit "llo\nyo\nx").length : Int) (lit "llo\nyo\nx")).2.map (fun b => b.message) =
        r.broadcasts.map (fun b => b.message) := by
  refine ⟨by decide, ?_⟩
  obtain ⟨r, h1, h2, -⟩ := framing_equivalence two_clients { fd := 4, id := 0, msg := lit "he" }
    (MiniServV2.set_message_buffer MiniServV2.two_clients 4 (some (lit "he"))) 4
    (lit "llo\nyo\nx") (by decide) (by decide) (by decide) (by decide) (by decide) (by decide)
  exact ⟨r, h1, h2⟩

end MiniServ

/-! ## Bytes after a NUL -/

namespace MiniServ

theorem cstr_append_zero (b tail : List Nat) : cstr (b ++ 0 :: tail) = cstr b := by
  induction b with
  | nil => simp [cstr]
  | cons c rest ih =>
    by_cases hc : c = 0
    · simp [cstr, hc]
    · simp [cstr, hc, ih]

theorem cstr_idem (b : List Nat) : cstr (cstr b) = cstr b :=
  cstr_of_nul_free _ (nul_free_cstr b)

/-- The append step is the one `handle_client_message` of `mini_serv.c` makes. -/
theorem handle_client_message_append (s : Server) (client : t_client) (bytes_read : Int)
    (received : List Nat) (h : 0 < bytes_read) :
    handle_client_message s client bytes_read received =
      ({ s with clients := (set_msg client.fd
          (if strlen (line_loop s client ((append_received client bytes_read received).length + 1)
                (append_received client bytes_read received)).2 > 0
            then strcpy (line_loop s client
              ((append_received client bytes_read received).length + 1)
              (append_received client bytes_read received)).2
            else [])
          s.clients) },
        (line_loop s client ((append_received client bytes_read received).length + 1)
          (append_received client bytes_read received)).1) := by
  have hneg : ¬ bytes_read ≤ 0 := by omega
  simp only [handle_client_message, hneg, if_false, append_received]

/-- The append step is the one `handle_client_message` of `mini_serv_V2.c` makes. -/
theorem handle_client_message_append_v2 (mem : Nat → Bool) (s : MiniServV2.Server)
    (client_fd bytes_received : Int) (received : List Nat) (h : 0 < bytes_received) :
    MiniServV2.handle_client_message mem s client_fd bytes_received received =
      MiniServV2.message_loop mem client_fd
        (MiniServV2.buffer_length
          (MiniServV2.append_received mem s client_fd bytes_received received) + 1) 1
        (MiniServV2.set_message_buffer s client_fd
          (MiniServV2.append_received mem s client_fd bytes_received received)) := by
  have hneg : ¬ bytes_received ≤ 0 := by omega
  simp only [MiniServV2.handle_client_message, hneg, if_false, MiniServV2.append_received,
    MiniServV2.set_message_buffer_same]

/-- C12 as stated fails. With `"x"` pending, a read of the three bytes `a`,
0x00, `b` leaves `"xa"` pending in both servers, not `"x"` followed by the three
bytes: the byte 0x00 and what follows it are dropped. -/
theorem nul_byte_cuts_the_chunk :
    (MiniServV2.append_received MiniServV2.mem_ok
        (MiniServV2.set_message_buffer MiniServV2.two_clients 4 (some (lit "x"))) 4 3
        [97, 0, 98] = some (lit "xa") ∧
      MiniServV2.append_received MiniServV2.mem_ok
        (MiniServV2.set_message_buffer MiniServV2.two_clients 4 (some (lit "x"))) 4 3
        [97, 0, 98] ≠ some (lit "x" ++ [97, 0, 98])) ∧
    (append_received { fd := 4, id := 0, msg := lit "x" } 3 [97, 0, 98] = lit "xa" ∧
      append_received { fd := 4, id := 0, msg := lit "x" } 3 [97, 0, 98] ≠
        lit "x" ++ [97, 0, 98]) := by
  decide

/-- C12, amended. After the append step of a read of `n > 0` bytes the pending
bytes are the former pending bytes followed by the received bytes that come
before the first byte 0x00 of the chunk: all `n` of them when the chunk holds
no 0x00, and none from the first 0x00 on otherwise. So it is in
`mini_serv_V2.c` (`malloc` succeeding, `NULL` read as empty) and in `mini_serv.c`,
for pending bytes without NUL. -/
theorem append_up_to_nul :
    (∀ (mem : Nat → Bool) (s : MiniServV2.Server) (client_fd bytes_received : Int)
      (received : List Nat), 0 < bytes_received → mem 0 = true →
      0 ∉ ((s.client_list client_fd).message_buffer).getD [] →
      MiniServV2.append_received mem s client_fd bytes_received received =
        some (((s.client_list client_fd).message_buffer).getD [] ++
          cstr (received.take bytes_received.toNat)) ∧
      (0 ∉ received.take bytes_received.toNat →
        MiniServV2.append_received mem s client_fd bytes_received received =
          some (((s.client_list client_fd).message_buffer).getD [] ++
            received.take bytes_received.toNat))) ∧
    (∀ (client : t_client) (bytes_read : Int) (received : List Nat), 0 < bytes_read →
      0 ∉ client.msg →
      append_received client bytes_read received =
        client.msg ++ cstr (received.take bytes_read.toNat) ∧
      (0 ∉ received.take bytes_read.toNat →
        append_received client bytes_read received =
          client.msg ++ received.take bytes_read.toNat)) ∧
    (∀ (pre rest : List Nat), 0 ∉ pre → cstr (pre ++ 0 :: rest) = pre) := by
  refine ⟨?_, ?_, fun pre rest h => cstr_append_nul pre rest h⟩
  · intro mem s fd n received _ hmem hP
    have key : MiniServV2.append_received mem s fd n received =
        some (((s.client_list fd).message_buffer).getD [] ++ cstr (received.take n.toNat)) := by
      simp only [MiniServV2.append_received, MiniServV2.append_to_buffer, hmem, if_true, strcat,
        cstr_append_zero]
      cases hb : (s.client_list fd).message_buffer with
      | none => simp [cstr]
      | some pb =>
        rw [hb] at hP
        simp only [Option.getD_some] at hP
        simp [cstr, cstr_idem, cstr_of_nul_free pb hP]
    refine ⟨key, fun h0 => ?_⟩
    rw [key, cstr_of_nul_free _ h0]
  · intro client n received _ hP
    have key : append_received client n received =
        client.msg ++ cstr (received.take n.toNat) := by
      simp only [append_received, strcat, cstr_append_zero, cstr_of_nul_free _ hP]
    refine ⟨key, fun h0 => ?_⟩
    rw [key, cstr_of_nul_free _ h0]

/-- Witness of C12, amended: the chunks `a`, 0x00, `b` (cut at the 0x00) and
`"abc"` (kept whole), on `"x"` pending. -/
theorem append_up_to_nul_witness :
    append_received { fd := 4, id := 0, msg := lit "x" } 3 [97, 0, 98] =
      lit "x" ++ cstr (List.take (3 : Int).toNat [97, 0, 98]) ∧
    append_received { fd := 4, id := 0, msg := lit "x" } 3 (lit "abc") = lit "xabc" ∧
    MiniServV2.append_received MiniServV2.mem_ok
        (MiniServV2.set_message_buffer MiniServV2.two_clients 4 (some (lit "x"))) 4 3
        (lit "abc") =
      some (((MiniServV2.set_message_buffer MiniServV2.two_clients 4
        (some (lit "x"))).client_list 4).message_buffer.getD [] ++
          List.take (3 : Int).toNat (lit "abc")) :=
  ⟨(append_up_to_nul.2.1 { fd := 4, id := 0, msg := lit "x" } 3 [97, 0, 98] (by decide)
      (by decide)).1,
    by decide,
    (append_up_to_nul.1 MiniServV2.mem_ok
      (MiniServV2.set_message_buffer MiniServV2.two_clients 4 (some (lit "x"))) 4 3 (lit "abc")
      (by decide) rfl (by decide)).2 (by decide)⟩

end MiniServ

/-! ## mini_serv.c: the size of `msg` -/

namespace MiniServ

theorem find_client_set_pending (s : Server) (fd : Int) (msg : List Nat) :
    find_client (set_pending s fd msg) fd =
      (find_client s fd).map (fun c => { c with msg := msg }) :=
  find_in_set_msg fd msg s.clients

/-- A chunk without newline is added to the pending bytes and nothing is
broadcast: the pending line grows with every such read. -/
theorem step_recv_pending (s : Server) (client : t_client) (R : List Nat) (n : Int)
    (hn : n = R.length) (hfind : find_client s client.fd = some client)
    (hP0 : 0 ∉ client.msg) (hPn : 10 ∉ client.msg) (hR : R ≠ []) (hR0 : 0 ∉ R)
    (hRn : 10 ∉ R) :
    step s (Event.recv client.fd n R) = some (set_pending s client.fd (client.msg ++ R), []) := by
  subst hn
  have hpos : (0 : Int) < R.length := by
    have : 0 < R.length := List.length_pos.mpr hR
    omega
  have hnl : 10 ∉ client.msg ++ R := by
    simp only [List.mem_append, not_or]; exact ⟨hPn, hRn⟩
  have hd := handle_client_message_data s client R.length R hpos
  have htake : List.take (R.length : Int).toNat R = R := by simp
  rw [htake, cstr_of_nul_free _ hP0, cstr_append_nul R [] hR0,
    complete_lines_no_newline _ hnl, unterminated_tail_no_newline _ hnl] at hd
  simp only [step, hfind, hd, List.map_nil, set_pending]

theorem chat_text_length (id : Int) (L : List Nat) :
    L.length + 9 ≤ (lit "client " ++ fmt_d id ++ lit ": " ++ L).length := by
  have h1 : (lit "client ").length = 7 := by decide
  have h2 : (lit ": ").length = 2 := by decide
  simp only [List.length_append, h1, h2]
  omega

theorem chat_broadcasts (s : Server) (client : t_client) (bytes_read : Int)
    (received : List Nat) (hpos : 0 < bytes_read) (hmsg : 0 ∉ client.msg)
    (hrecv : 0 ∉ received.take bytes_read.toNat) :
    (handle_client_message s client bytes_read received).2 =
      (complete_lines (client.msg ++ received.take bytes_read.toNat)).map (fun L =>
        send_to_all_except s client.fd (lit "client " ++ fmt_d client.id ++ lit ": " ++ L)) := by
  rw [handle_client_message_data s client bytes_read received hpos,
    cstr_of_nul_free _ hmsg, cstr_append_nul _ [] hrecv]

/-- Pending bytes grow with every read without newline: after client 0, on
handle 4, sent 999 and 999 bytes `a`, 1998 bytes are pending. -/
theorem long_line_pending :
    ∃ s logs, run (init 3) (long_line_events.take 4) = some (s, logs) ∧
      find_client s 4 = some { fd := 4, id := 0, msg := List.replicate 1998 97 } ∧
      s.clients.map (fun c => c.fd) = [5, 4] := by
  have hR : ∀ k : Nat, (0 : Nat) ∉ List.replicate k 97 ∧ (10 : Nat) ∉ List.replicate k 97 := by
    intro k
    constructor <;> intro h <;> have := List.eq_of_mem_replicate h <;> omega
  have hne : List.replicate 999 97 ≠ [] := by
    intro h
    have := congrArg List.length h
    simp only [List.length_replicate, List.length_nil] at this
    omega
  have hlen : (999 : Int) = ((List.replicate 999 97).length : Int) := by
    rw [List.length_replicate]
    norm_num
  have e1 : step (add_client (add_client (init 3) 4) 5)
      (Event.recv 4 999 (List.replicate 999 97)) =
      some (set_pending (add_client (add_client (init 3) 4) 5) 4 (List.replicate 999 97),
        []) :=
    step_recv_pending (add_client (add_client (init 3) 4) 5)
      { fd := 4, id := 0, msg := [] } (List.replicate 999 97) 999 hlen (by decide) (by decide)
      (by decide) hne (hR 999).1 (hR 999).2
  have e2 : step (set_pending (add_client (add_client (init 3) 4) 5) 4 (List.replicate 999 97))
      (Event.recv 4 999 (List.replicate 999 97)) =
      some (set_pending (set_pending (add_client (add_client (init 3) 4) 5) 4
        (List.replicate 999 97)) 4 (List.replicate 999 97 ++ List.replicate 999 97), []) :=
    step_recv_pending
      (set_pending (add_client (add_client (init 3) 4) 5) 4 (List.replicate 999 97))
      { fd := 4, id := 0, msg := List.replicate 999 97 } (List.replicate 999 97) 999 hlen
      (by rw [find_client_set_pending]; rfl) (hR 999).1 (hR 999).2 hne (hR 999).1 (hR 999).2
  have hacc1 : step (init 3) (Event.accept 4) = some (add_client (init 3) 4,
      [send_to_all_except (add_client (init 3) 4) 4
        (lit "server: client " ++ fmt_d (init 3).next_id ++ lit " just arrived\n")]) :=
    accept_new_client_ok (init 3) 4 (by decide)
  have hacc2 : step (add_client (init 3) 4) (Event.accept 5) =
      some (add_client (add_client (init 3) 4) 5,
      [send_to_all_except (add_client (add_client (init 3) 4) 5) 5
        (lit "server: client " ++ fmt_d (add_client (init 3) 4).next_id ++
          lit " just arrived\n")]) :=
    accept_new_client_ok (add_client (init 3) 4) 5 (by decide)
  refine ⟨set_pending (set_pending (add_client (add_client (init 3) 4) 5) 4
      (List.replicate 999 97)) 4 (List.replicate 999 97 ++ List.replicate 999 97),
    [[send_to_all_except (add_client (init 3) 4) 4
        (lit "server: client " ++ fmt_d (init 3).next_id ++ lit " just arrived\n")],
     [send_to_all_except (add_client (add_client (init 3) 4) 5) 5
        (lit "server: client " ++ fmt_d (add_client (init 3) 4).next_id ++
          lit " just arrived\n")], [], []], ?_, ?_, ?_⟩
  · show run (init 3) [Event.accept 4, Event.accept 5,
      Event.recv 4 999 (List.replicate 999 97), Event.recv 4 999 (List.replicate 999 97)] = _
    simp only [run, hacc1, hacc2, e1, e2, Option.map_some']
  · rw [find_client_set_pending, find_client_set_pending, List.append_replicate_replicate]
    rfl
  · simp only [set_pending, set_msg_fds]
    rfl

/-- C13, where the code departs from it. `handle_client_message` of
`mini_serv.c` formats every chat line with `sprintf` into `char msg[2000]`,
whatever the length of the line. (1) For every completed line `L` of
pending-then-chunk the text asked of `sprintf` is `"client {id}: " ++ L`, and
it does not fit `msg` as soon as `L` has 1991 bytes or more. (2) Pending bytes
grow with every read without newline, so such lines are reached: after client
0 sent 999 and 999 bytes `a`, 1998 bytes are pending. (3) Its next read, two
`a` and a newline, completes a line of 2001 bytes: the one text `sprintf` is
asked to write has 2011 bytes, 2012 with its terminator, for the 2000 of `msg`. -/
theorem long_line_overruns_msg :
    (∀ (s : Server) (client : t_client) (bytes_read : Int) (received : List Nat),
      0 < bytes_read → 0 ∉ client.msg → 0 ∉ received.take bytes_read.toNat →
      (handle_client_message s client bytes_read received).2.map (fun b => b.message) =
        (complete_lines (client.msg ++ received.take bytes_read.toNat)).map
          (fun L => lit "client " ++ fmt_d client.id ++ lit ": " ++ L) ∧
      ∀ L ∈ complete_lines (client.msg ++ received.take bytes_read.toNat),
        MSG_SIZE < L.length + 10 →
        fits_msg (lit "client " ++ fmt_d client.id ++ lit ": " ++ L) = false) ∧
    (∃ s logs, run (init 3) (long_line_events.take 4) = some (s, logs) ∧
      find_client s 4 = some { fd := 4, id := 0, msg := List.replicate 1998 97 } ∧
      s.clients.map (fun c => c.fd) = [5, 4]) ∧
    (∀ s : Server, s.clients.map (fun c => c.fd) = [5, 4] →
      (handle_client_message s { fd := 4, id := 0, msg := List.replicate 1998 97 } 3
          [97, 97, 10]).2 =
        [{ sender_fd := 4
           message := lit "client 0: " ++ (List.replicate 2000 97 ++ [10])
           sent_to := [5] }] ∧
      (lit "client 0: " ++ (List.replicate 2000 97 ++ [10])).length = 2011 ∧
      fits_msg (lit "client 0: " ++ (List.replicate 2000 97 ++ [10])) = false) := by
  refine ⟨?_, ?_, ?_⟩
  · intro s client n received hpos hP hR
    have h := chat_broadcasts s client n received hpos hP hR
    refine ⟨?_, ?_⟩
    · rw [h]
      simp only [List.map_map]
      apply List.map_congr_left
      intro L _
      rfl
    · intro L _ hlen
      have := chat_text_length client.id L
      simp only [fits_msg, decide_eq_false_iff_not, not_le]
      omega
  · exact long_line_pending
  · intro s hs
    have hP : ∀ k : Nat, (0 : Nat) ∉ List.replicate k 97 ∧ (10 : Nat) ∉ List.replicate k 97 := by
      intro k
      constructor <;> intro h <;> have := List.eq_of_mem_replicate h <;> omega
    have h := chat_broadcasts s { fd := 4, id := 0, msg := List.replicate 1998 97 } 3
      [97, 97, 10] (by decide) (hP 1998).1 (by decide)
    have hpre : (10 : Nat) ∉ List.replicate 1998 97 ++ [97, 97] := by
      simp only [List.mem_append, not_or]
      exact ⟨(hP 1998).2, by decide⟩
    have hsplit : List.replicate 1998 97 ++ List.take (3 : Int).toNat [97, 97, 10] =
        (List.replicate 1998 97 ++ [97, 97]) ++ 10 :: [] := by
      have ht : List.take (3 : Int).toNat [97, 97, 10] = [97, 97, 10] := by decide
      rw [ht, List.append_assoc]
      rfl
    have hlines : complete_lines ((List.replicate 1998 97 ++ [97, 97]) ++ 10 :: []) =
        [(List.replicate 1998 97 ++ [97, 97]) ++ [10]] := by
      rw [complete_lines_first _ _ hpre]
      rfl
    have h2000 : List.replicate 1998 97 ++ [97, 97] = List.replicate 2000 97 := by
      have : ([97, 97] : List Nat) = List.replicate 2 97 := rfl
      rw [this, List.append_replicate_replicate]
    have hsend : send_loop 4 s.clients = [5] := by
      have hmem : ∀ x, x ∈ send_loop 4 s.clients ↔ x = 5 := by
        intro x
        rw [mem_send_loop, hs]
        simp only [List.mem_cons, List.mem_singleton, List.not_mem_nil, or_false]
        constructor
        · rintro ⟨h1 | h1, h2⟩
          · exact h1
          · exact absurd h1 h2
        · intro h1; subst h1; exact ⟨Or.inl rfl, by decide⟩
      have hfilter : send_loop 4 s.clients = (s.clients.map (fun c => c.fd)).filter
          (fun x => decide (x ≠ 4)) := by
        generalize s.clients = l
        induction l with
        | nil => rfl
        | cons c rest ih =>
          by_cases hc : c.fd = 4
          · simp [send_loop, hc, ih]
          · simp [send_loop, hc, ih]
      rw [hfilter, hs]
      decide
    have hfmt : lit "client " ++ fmt_d (0 : Int) ++ lit ": " = lit "client 0: " := by decide
    refine ⟨?_, ?_, ?_⟩
    · rw [h, hsplit, hlines, h2000]
      simp only [List.map_cons, List.map_nil, send_to_all_except, hsend, hfmt]
    · have h10 : (lit "client 0: ").length = 10 := by decide
      simp only [List.length_append, List.length_replicate, h10, List.length_cons,
        List.length_nil]
    · have h10 : (lit "client 0: ").length = 10 := by decide
      simp only [fits_msg, MSG_SIZE, List.length_append, List.length_replicate, h10,
        List.length_cons, List.length_nil]
      decide

end MiniServ

/-! ## mini_serv_V2.c: allocation failure -/

namespace MiniServV2
open MiniServ

/-- C14, where the code departs from it. Allocation failure does not end
`mini_serv_V2.c`. (1) When the `malloc` of `append_to_buffer` fails,
`handle_client_message` returns normally with `message_buffer` set to `NULL`:
the pending bytes and the chunk are lost and nothing is reported. (2) When the
`calloc` of `extract_complete_message` fails on a buffer that holds a newline,
the function returns -1 with a `NULL` message, and (3) the loop
`while (extract_complete_message(...))`, for which -1 is true, runs its body on
that `NULL` message (`none`: `broadcast_client_message` hands it to `%s`). So it
is for the client of handle 5 reading `"hi\n"`. -/
theorem allocation_failure_not_fatal :
    (∀ (mem : Nat → Bool) (s : Server) (client_fd bytes_received : Int) (received : List Nat),
      0 < bytes_received → mem 0 = false →
      handle_client_message mem s client_fd bytes_received received =
        some { state := set_message_buffer s client_fd none, lines := [], broadcasts := [] }) ∧
    (∀ (buf : List Nat) (position : Nat), scan buf 0 = some position →
      extract_complete_message false (some buf) =
        { ret := -1, buffer := some buf, extracted_message := none }) ∧
    (∀ (mem : Nat → Bool) (client_fd : Int) (fuel k : Nat) (s : Server) (buf : List Nat)
      (position : Nat), (s.client_list client_fd).message_buffer = some buf →
      scan buf 0 = some position → mem k = false →
      message_loop mem client_fd (fuel + 1) k s = none) ∧
    (handle_client_message (mem_fails_at 1) two_clients_pending 5 3 (lit "hi\n")).isNone = true ∧
    (handle_client_message (mem_fails_at 0) two_clients_pending 5 3 (lit "hi\n")).map
        (fun r => (r.lines, r.broadcasts, (r.state.client_list 5).message_buffer,
          FD_ISSET 5 r.state.master_set)) =
      some ([], [], none, true) := by
  refine ⟨?_, ?_, ?_, by decide, by decide⟩
  · intro mem s fd n received hpos hmem
    have hneg : ¬ n ≤ 0 := by omega
    simp only [handle_client_message, hneg, if_false, append_to_buffer, hmem,
      Bool.false_eq_true, set_message_buffer_same, buffer_length, message_loop,
      extract_complete_message, if_true, set_message_buffer_twice]
  · intro buf position hs
    simp only [extract_complete_message, hs, Bool.false_eq_true, if_false]
  · intro mem fd fuel k s buf position hb hs hmem
    simp only [message_loop, hb, hmem, extract_complete_message, hs, Bool.false_eq_true,
      if_false]
    rfl

end MiniServV2

/-! ## mini_serv_V2.c: acceptance ordering -/

namespace MiniServV2
open MiniServ

theorem message_loop_master (mem : Nat → Bool) (fd : Int) :
    ∀ (fuel k : Nat) (s : Server) (h : Handled),
      message_loop mem fd fuel k s = some h → h.state.master_set = s.master_set := by
  intro fuel
  induction fuel with
  | zero =>
    intro k s h hh
    simp only [message_loop, Option.some.injEq] at hh
    subst hh
    rfl
  | succ fuel ih =>
    intro k s h hh
    simp only [message_loop] at hh
    split at hh
    · simp only [Option.some.injEq] at hh
      subst hh
      rfl
    · split at hh
      · exact absurd hh (by simp)
      · cases hr : message_loop mem fd fuel (k + 1)
            (set_message_buffer s fd
              (extract_complete_message (mem k) (s.client_list fd).message_buffer).buffer) with
        | none => rw [hr] at hh; exact absurd hh (by simp)
        | some h2 =>
          rw [hr] at hh
          simp only [Option.map_some', Option.some.injEq] at hh
          subst hh
          exact (ih (k + 1) _ h2 hr).trans rfl

theorem handle_client_message_master (mem : Nat → Bool) (s : Server) (fd : Int)
    (bytes_received : Int) (received : List Nat) (h : Handled)
    (hh : handle_client_message mem s fd bytes_received received = some h) :
    h.state.master_set = s.master_set ∨ h.state.master_set = FD_CLR fd s.master_set := by
  unfold handle_client_message at hh
  split at hh
  · simp only [Option.some.injEq] at hh
    subst hh
    exact Or.inr (cleanup_client_master s fd)
  · exact Or.inl ((message_loop_master mem fd _ _ _ _ hh).trans rfl)

theorem listening_lowest_connection (s : Server) (a : Int) (h : listening_lowest s)
    (ha : a < 0 ∨ s.server_socket < a) : listening_lowest (handle_new_connection s a).1 := by
  by_cases hneg : a < 0
  · rw [handle_new_connection_fail s a hneg]; exact h
  · have ha2 : s.server_socket < a := by
      rcases ha with ha | ha
      · exact absurd ha hneg
      · exact ha
    obtain ⟨_, _, _, hm, hsrv⟩ := handle_new_connection_slot s a hneg
    obtain ⟨_, _, _, hhi⟩ := handle_new_connection_keeps_sets s a
    obtain ⟨h1, h2, h3, h4⟩ := h
    refine ⟨by rw [hsrv]; exact h1, by rw [hsrv]; exact le_trans h2 hhi, ?_, ?_⟩
    · rw [hsrv, hm]
      simp only [FD_ISSET, FD_SET] at h3 ⊢
      simp [h3]
    · intro fd hfd
      rw [hsrv]
      simp only [registered, hm, hsrv, FD_ISSET, FD_SET, Bool.and_eq_true,
        decide_eq_true_eq] at hfd
      by_cases hx : fd = a
      · rw [hx]; exact ha2
      · simp only [hx, if_false] at hfd
        exact h4 fd (by simp only [registered, FD_ISSET, Bool.and_eq_true, decide_eq_true_eq]
                        exact hfd)

theorem listening_lowest_client (mem : Nat → Bool) (s : Server) (fd : Int)
    (bytes_received : Int) (received : List Nat) (r : Handled) (h : listening_lowest s)
    (hfd : fd ≠ s.server_socket)
    (hh : handle_client_message mem s fd bytes_received received = some r) :
    listening_lowest r.state := by
  obtain ⟨_, _, hsrv, hhi⟩ := handle_client_message_same_sets mem s fd _ _ r hh
  obtain ⟨h1, h2, h3, h4⟩ := h
  rcases handle_client_message_master mem s fd _ _ r hh with hm | hm
  · refine ⟨by rw [hsrv]; exact h1, by rw [hsrv, hhi]; exact h2, by rw [hsrv, hm]; exact h3, ?_⟩
    intro x hx
    rw [hsrv]
    exact h4 x (by simpa only [registered, hm, hsrv] using hx)
  · refine ⟨by rw [hsrv]; exact h1, by rw [hsrv, hhi]; exact h2, ?_, ?_⟩
    · rw [hsrv, hm]
      simp only [FD_ISSET, FD_CLR] at h3 ⊢
      simp [h3, Ne.symm hfd]
    · intro x hx
      rw [hsrv]
      simp only [registered, hm, hsrv, FD_ISSET, FD_CLR, Bool.and_eq_true,
        decide_eq_true_eq] at hx
      by_cases hxf : x = fd
      · simp [hxf] at hx
      · simp only [hxf, if_false] at hx
        exact h4 x (by simp only [registered, FD_ISSET, Bool.and_eq_true, decide_eq_true_eq]
                       exact hx)

theorem dispatch_listening_lowest (e : Pass) :
    ∀ (fuel : Nat) (fd : Int) (s : Server) (q : Server × List Broadcast),
      listening_lowest s → (e.accept_ret < 0 ∨ s.server_socket < e.accept_ret) →
      dispatch e fuel fd s = some q →
      listening_lowest q.1 ∧ q.1.server_socket = s.server_socket := by
  intro fuel
  induction fuel with
  | zero =>
    intro fd s q hl _ hq
    simp only [dispatch, Option.some.injEq] at hq
    subst hq
    exact ⟨hl, rfl⟩
  | succ fuel ih =>
    intro fd s q hl ha hq
    rw [dispatch] at hq
    by_cases hfd : fd ≤ s.highest_fd
    · simp only [hfd, if_true] at hq
      split at hq
      · exact ih _ _ q hl ha hq
      · split at hq
        · cases hd : dispatch e fuel (fd + 1) (handle_new_connection s e.accept_ret).1 with
          | none => simp only [hd, Option.map_none'] at hq; exact absurd hq (by simp)
          | some q2 =>
            simp only [hd, Option.map_some', Option.some.injEq] at hq
            subst hq
            have hsrv := (handle_new_connection_keeps_sets s e.accept_ret).2.2.1
            have h2 := ih _ _ q2 (listening_lowest_connection s _ hl ha)
              (by rw [hsrv]; exact ha) hd
            exact ⟨h2.1, h2.2.trans hsrv⟩
        · rename_i hne
          cases hh : handle_client_message (e.mem fd) s fd (e.recv_ret fd) (e.recv_data fd) with
          | none => simp only [hh] at hq; exact absurd hq (by simp)
          | some r =>
            simp only [hh] at hq
            cases hd : dispatch e fuel (fd + 1) r.state with
            | none => simp only [hd, Option.map_none'] at hq; exact absurd hq (by simp)
            | some q2 =>
              simp only [hd, Option.map_some', Option.some.injEq] at hq
              subst hq
              have hsrv := (handle_client_message_same_sets _ s fd _ _ r hh).2.2.1
              have h2 := ih _ _ q2 (listening_lowest_client _ s fd _ _ r hl hne hh)
                (by rw [hsrv]; exact ha) hd
              exact ⟨h2.1, h2.2.trans hsrv⟩
    · simp only [hfd, if_false, Option.some.injEq] at hq
      subst hq
      exact ⟨hl, rfl⟩

theorem main_pass_listening_lowest (e : Pass) (s : Server) (q : Server × List Broadcast)
    (hl : listening_lowest s) (ha : e.accept_ret < 0 ∨ s.server_socket < e.accept_ret)
    (hq : main_pass e s = some q) :
    listening_lowest q.1 ∧ q.1.server_socket = s.server_socket := by
  unfold main_pass at hq
  by_cases hsel : e.select_ret < 0
  · simp only [hsel, if_true, Option.some.injEq] at hq
    subst hq
    exact ⟨hl, rfl⟩
  · simp only [hsel, if_false] at hq
    exact dispatch_listening_lowest e _ _ (select_sets s e.readable e.writable) q hl ha hq

theorem listening_lowest_setup (k : Int) (hk : 0 ≤ k) :
    listening_lowest (setup_server_socket k) := by
  refine ⟨hk, le_refl _, ?_, ?_⟩
  · simp [setup_server_socket, FD_ISSET, FD_SET]
  · intro fd hfd
    simp only [registered, setup_server_socket, FD_ISSET, FD_SET, FD_ZERO, Bool.and_eq_true,
      decide_eq_true_eq] at hfd
    by_cases hx : fd = k
    · exact absurd hx hfd.2
    · simp [hx] at hfd

theorem passes_listening_lowest :
    ∀ (es : List Pass) (s s2 : Server), listening_lowest s →
      accepts_above s.server_socket es → passes s es = some s2 →
      listening_lowest s2 ∧ s2.server_socket = s.server_socket := by
  intro es
  induction es with
  | nil =>
    intro s s2 hl _ hp
    simp only [passes, Option.some.injEq] at hp
    subst hp
    exact ⟨hl, rfl⟩
  | cons e es ih =>
    intro s s2 hl ha hp
    rw [passes] at hp
    cases hq : main_pass e s with
    | none => simp only [hq] at hp; exact absurd hp (by simp)
    | some q =>
      simp only [hq] at hp
      obtain ⟨h1, hsrv⟩ :=
        main_pass_listening_lowest e s q hl (ha e (List.mem_cons_self _ _)) hq
      have h2 := ih q.1 s2 h1
        (fun x hx => by rw [hsrv]; exact ha x (List.mem_cons_of_mem _ hx)) hp
      exact ⟨h2.1, h2.2.trans hsrv⟩

theorem dispatch_calls_clients (e : Pass) :
    ∀ (fuel : Nat) (fd : Int) (s : Server), s.server_socket < fd →
      ∀ c ∈ dispatch_calls e fuel fd s, ∃ fd2, c = Serviced.client fd2 ∧ s.server_socket < fd2 := by
  intro fuel
  induction fuel with
  | zero => intro fd s _ c hc; simp [dispatch_calls] at hc
  | succ fuel ih =>
    intro fd s hfd c hc
    rw [dispatch_calls] at hc
    by_cases hle : fd ≤ s.highest_fd
    · simp only [hle, if_true] at hc
      split at hc
      · exact ih _ s (by omega) c hc
      · split at hc
        · rename_i heq
          omega
        · cases hh : handle_client_message (e.mem fd) s fd (e.recv_ret fd) (e.recv_data fd) with
          | none =>
            simp only [hh, List.mem_singleton] at hc
            exact ⟨fd, hc, hfd⟩
          | some r =>
            simp only [hh, List.mem_cons] at hc
            rcases hc with hc | hc
            · exact ⟨fd, hc, hfd⟩
            · have hsrv := (handle_client_message_same_sets _ s fd _ _ r hh).2.2.1
              obtain ⟨fd2, h1, h2⟩ := ih (fd + 1) r.state (by rw [hsrv]; omega) c hc
              exact ⟨fd2, h1, by rw [← hsrv]; exact h2⟩
    · simp [hle] at hc

theorem dispatch_calls_first (e : Pass) :
    ∀ (n fuel : Nat) (fd : Int) (s : Server), fd + n = s.server_socket → n < fuel →
      s.server_socket ≤ s.highest_fd →
      (∀ x, fd ≤ x → x < s.server_socket → FD_ISSET x s.read_set = false) →
      FD_ISSET s.server_socket s.read_set = true →
      dispatch_calls e fuel fd s =
        Serviced.connection s.server_socket ::
          dispatch_calls e (fuel - n - 1) (s.server_socket + 1)
            (handle_new_connection s e.accept_ret).1 := by
  intro n
  induction n with
  | zero =>
    intro fuel fd s hfd hfuel hhi _ hready
    have hfd2 : fd = s.server_socket := by omega
    obtain ⟨f, rfl⟩ : ∃ f, fuel = f + 1 := ⟨fuel - 1, by omega⟩
    rw [dispatch_calls]
    subst hfd2
    simp only [hhi, if_true, hready, Bool.true_eq_false, if_false]
    rfl
  | succ n ih =>
    intro fuel fd s hfd hfuel hhi hlow hready
    obtain ⟨f, rfl⟩ : ∃ f, fuel = f + 1 := ⟨fuel - 1, by omega⟩
    rw [dispatch_calls]
    have hle : fd ≤ s.highest_fd := by omega
    have hnot : FD_ISSET fd s.read_set = false := hlow fd (le_refl _) (by omega)
    simp only [hle, if_true, hnot]
    rw [ih f (fd + 1) s (by omega) (by omega) hhi (fun x h1 h2 => hlow x (by omega) h2) hready]
    have : f + 1 - (n + 1) - 1 = f - n - 1 := by omega
    rw [this]

/-- The requirement is needed: with the listening handle 5 above the client
handle 4 and both ready, the loop of `main` services the client first. -/
theorem client_first_when_listening_above :
    main_pass_calls pass_all_ready listening_above =
      [Serviced.client 4, Serviced.connection 5] := by
  decide

/-- C16. Acceptance ordering in `mini_serv_V2.c`. Let `s` be the state at the head
of a pass of the loop of `main`, reached from `setup_server_socket` (where
`socket` answered `k`) by passes in which `accept` only answered handles above
the listening one, so that `server_socket` is below every registered handle.
If `select` succeeds and reports the listening handle ready, the first call of
the pass is `handle_new_connection()`, and every later call of the pass is a
`handle_client_message(fd)` on a handle above `server_socket`. -/
theorem acceptance_ordering (k : Int) (es : List Pass) (s : Server) (e : Pass)
    (hk : 0 ≤ k) (habove : accepts_above k es)
    (hrun : passes (setup_server_socket k) es = some s)
    (hsel : ¬ e.select_ret < 0) (hready : e.readable s.server_socket = true) :
    s.server_socket = k ∧ (∀ fd, registered s fd = true → s.server_socket < fd) ∧
    ∃ rest, main_pass_calls e s = Serviced.connection s.server_socket :: rest ∧
      ∀ c ∈ rest, ∃ fd, c = Serviced.client fd ∧ s.server_socket < fd := by
  obtain ⟨⟨h1, h2, h3, h4⟩, hsrv⟩ :=
    passes_listening_lowest es (setup_server_socket k) s (listening_lowest_setup k hk) habove hrun
  refine ⟨hsrv, h4, ?_⟩
  have hlow : ∀ x, (0 : Int) ≤ x → x < (select_sets s e.readable e.writable).server_socket →
      FD_ISSET x (select_sets s e.readable e.writable).read_set = false := by
    intro x _ hx
    cases hm : s.master_set x with
    | false => simp [FD_ISSET, select_sets, hm]
    | true =>
      have hreg : registered s x = true := by
        simp only [registered, FD_ISSET, hm, Bool.true_and, decide_eq_true_eq]
        exact ne_of_lt hx
      have := h4 x hreg
      exact absurd hx (by
        show ¬ x < s.server_socket
        omega)
  have hrd : FD_ISSET (select_sets s e.readable e.writable).server_socket
      (select_sets s e.readable e.writable).read_set = true := by
    show (s.master_set s.server_socket && e.readable s.server_socket) = true
    simp only [FD_ISSET] at h3
    rw [h3, hready]
    rfl
  have hfirst := dispatch_calls_first e s.server_socket.toNat
    ((max (select_sets s e.readable e.writable).highest_fd e.accept_ret + 1).toNat + 1) 0
    (select_sets s e.readable e.writable)
    (by show (0 : Int) + (s.server_socket.toNat : Int) = s.server_socket
        rw [Int.toNat_of_nonneg h1]; omega)
    (by have hmax : s.highest_fd ≤ max s.highest_fd e.accept_ret := le_max_left _ _
        show s.server_socket.toNat < (max s.highest_fd e.accept_ret + 1).toNat + 1
        omega)
    h2 hlow hrd
  refine ⟨dispatch_calls e
      ((max (select_sets s e.readable e.writable).highest_fd e.accept_ret + 1).toNat + 1 -
        s.server_socket.toNat - 1)
      ((select_sets s e.readable e.writable).server_socket + 1)
      (handle_new_connection (select_sets s e.readable e.writable) e.accept_ret).1, ?_, ?_⟩
  · simp only [main_pass_calls, hsel, if_false]
    exact hfirst
  · intro c hc
    have hs2 := (handle_new_connection_keeps_sets (select_sets s e.readable e.writable)
      e.accept_ret).2.2.1
    obtain ⟨fd, hfd1, hfd2⟩ := dispatch_calls_clients e _ _ _ (by rw [hs2]; omega) c hc
    exact ⟨fd, hfd1, by rw [hs2] at hfd2; exact hfd2⟩

/-- Witness of C16: the server listening on handle 3 accepted clients on handles
4 and 5; in a pass in which the three handles are ready the calls are
`handle_new_connection()`, then `handle_client_message` on 4 and on 5. -/
theorem acceptance_ordering_witness :
    main_pass_calls pass_all_ready after_two_accepts =
      [Serviced.connection 3, Serviced.client 4, Serviced.client 5] ∧
    (after_two_accepts.server_socket = 3 ∧
      (∀ fd, registered after_two_accepts fd = true → after_two_accepts.server_socket < fd) ∧
      ∃ rest, main_pass_calls pass_all_ready after_two_accepts =
          Serviced.connection after_two_accepts.server_socket :: rest ∧
        ∀ c ∈ rest, ∃ fd, c = Serviced.client fd ∧ after_two_accepts.server_socket < fd) :=
  ⟨by decide,
   acceptance_ordering 3 [pass_accept 4, pass_accept 5] after_two_accepts pass_all_ready
     (by decide) (by
       intro e he
       simp only [List.mem_cons, List.mem_singleton, List.not_mem_nil, or_false] at he
       rcases he with rfl | rfl
       · exact Or.inr (by decide)
       · exact Or.inr (by decide))
     rfl (by decide) (by decide)⟩

end MiniServV2

/-! ## mini_serv.c: chat-line format and the bound of `msg` -/

namespace MiniServ

theorem line_loop_bounded_eq (s : Server) (client : t_client) :
    ∀ (fuel : Nat) (line_start : List Nat),
      line_loop_bounded s client fuel line_start =
        if (line_loop s client fuel line_start).1.all (fun b => fits_msg b.message) then
          some (line_loop s client fuel line_start)
        else none := by
  intro fuel
  induction fuel with
  | zero => intro l; simp [line_loop_bounded, line_loop]
  | succ fuel ih =>
    intro l
    rw [line_loop_bounded, line_loop]
    cases hs : strstr_newline l 0 with
    | none => simp
    | some newline =>
      simp only [sprintf_msg]
      by_cases hf : fits_msg (lit "client " ++ fmt_d client.id ++ lit ": " ++
          cstr (l.set newline 0) ++ lit "\n") = true
      · simp only [hf, if_true, ih, List.all_cons, send_to_all_except, Bool.true_and]
        split
        · rfl
        · rfl
      · simp only [hf, if_false, List.all_cons, send_to_all_except, Bool.false_and]
        simp

theorem handle_client_message_bounded_eq (s : Server) (client : t_client) (bytes_read : Int)
    (received : List Nat) :
    handle_client_message_bounded s client bytes_read received =
      if (handle_client_message s client bytes_read received).2.all
          (fun b => fits_msg b.message) ∨ bytes_read ≤ 0 then
        some (handle_client_message s client bytes_read received)
      else none := by
  by_cases hneg : bytes_read ≤ 0
  · simp [handle_client_message_bounded, handle_client_message, hneg]
  · simp only [handle_client_message_bounded, handle_client_message, hneg, if_false,
      line_loop_bounded_eq, or_false]
    by_cases hall : ((line_loop s client
        ((strcat client.msg (List.take bytes_read.toNat received ++ [0])).length + 1)
        (strcat client.msg (List.take bytes_read.toNat received ++ [0]))).1.all
          fun b => fits_msg b.message) = true
    · simp only [hall, if_true]
    · simp only [hall, if_false, Bool.false_eq_true]

/-- C5, where the code departs from it. Chat-line format of `mini_serv.c`, with
the bound of `char msg[2000]`. On a read of `bytes_read > 0` bytes without NUL
appended to a pending `msg` without NUL: (1) when the text
`"client " ++ decimal(id) ++ ": " ++ L` of every completed line `L` of
pending-then-chunk (newline included) fits `msg`, the call returns and its calls
of `send_to_all_except` are, in order, one per such line, with exactly that
text and the reader's handle excluded; each text holds exactly one newline, its
last byte. (2) When the text of some completed line does not fit `msg`, the
call overruns `msg` (`none`): no text is passed for it. (3) So it is when client
0 has 1998 bytes `a` pending, a state the server reaches, and reads two `a` and
a newline. -/
theorem chat_line_format :
    (∀ (s : Server) (client : t_client) (bytes_read : Int) (received : List Nat),
      0 < bytes_read → 0 ∉ client.msg → 0 ∉ received.take bytes_read.toNat →
      (∀ L ∈ complete_lines (client.msg ++ received.take bytes_read.toNat),
        fits_msg (lit "client " ++ fmt_d client.id ++ lit ": " ++ L) = true) →
      ∃ r, handle_client_message_bounded s client bytes_read received = some r ∧
        r.2 = (complete_lines (client.msg ++ received.take bytes_read.toNat)).map (fun L =>
          send_to_all_except s client.fd (lit "client " ++ fmt_d client.id ++ lit ": " ++ L)) ∧
        ∀ L ∈ complete_lines (client.msg ++ received.take bytes_read.toNat),
          (∃ pre, L = pre ++ [10] ∧ 10 ∉ pre) ∧
          (lit "client " ++ fmt_d client.id ++ lit ": " ++ L).count 10 = 1 ∧
          (lit "client " ++ fmt_d client.id ++ lit ": " ++ L).getLast? = some 10) ∧
    (∀ (s : Server) (client : t_client) (bytes_read : Int) (received : List Nat),
      0 < bytes_read → 0 ∉ client.msg → 0 ∉ received.take bytes_read.toNat →
      (∃ L ∈ complete_lines (client.msg ++ received.take bytes_read.toNat),
        fits_msg (lit "client " ++ fmt_d client.id ++ lit ": " ++ L) = false) →
      handle_client_message_bounded s client bytes_read received = none) ∧
    ((∃ s logs, run (init 3) (long_line_events.take 4) = some (s, logs) ∧
        find_client s 4 = some { fd := 4, id := 0, msg := List.replicate 1998 97 }) ∧
      ∀ s : Server, handle_client_message_bounded s
        { fd := 4, id := 0, msg := List.replicate 1998 97 } 3 [97, 97, 10] = none) := by
  have hover : ∀ (s : Server) (client : t_client) (bytes_read : Int) (received : List Nat),
      0 < bytes_read → 0 ∉ client.msg → 0 ∉ received.take bytes_read.toNat →
      (∃ L ∈ complete_lines (client.msg ++ received.take bytes_read.toNat),
        fits_msg (lit "client " ++ fmt_d client.id ++ lit ": " ++ L) = false) →
      handle_client_message_bounded s client bytes_read received = none := by
    intro s client n received hpos hP hR hex
    obtain ⟨L, hL, hfit⟩ := hex
    have hd := chat_broadcasts s client n received hpos hP hR
    have hneg : ¬ n ≤ 0 := by omega
    have hall : ¬ ((handle_client_message s client n received).2.all
        (fun b => fits_msg b.message) = true) := by
      intro hall
      rw [hd, List.all_eq_true] at hall
      have := hall _ (List.mem_map_of_mem _ hL)
      simp only [send_to_all_except] at this
      rw [hfit] at this
      exact absurd this (by decide)
    rw [handle_client_message_bounded_eq]
    simp only [hall, hneg, Bool.false_eq_true, or_self, if_false]
  refine ⟨?_, hover, ?_, ?_⟩
  · intro s client n received hpos hP hR hfit
    have hd := chat_broadcasts s client n received hpos hP hR
    have hall : (handle_client_message s client n received).2.all
        (fun b => fits_msg b.message) = true := by
      rw [hd, List.all_eq_true]
      intro b hb
      obtain ⟨L, hL, rfl⟩ := List.mem_map.1 hb
      exact hfit L hL
    refine ⟨handle_client_message s client n received, ?_, hd, ?_⟩
    · rw [handle_client_message_bounded_eq]
      simp only [hall, true_or, if_true]
    · intro L hL
      obtain ⟨pre, rfl, hpre⟩ := complete_lines_shape _ L hL
      exact ⟨⟨pre, rfl, hpre⟩, chat_text_one_newline client.id pre hpre⟩
  · obtain ⟨s, logs, h1, h2, -⟩ := long_line_pending
    exact ⟨s, logs, h1, h2⟩
  · intro s
    have hP : ∀ k : Nat, (0 : Nat) ∉ List.replicate k 97 ∧ (10 : Nat) ∉ List.replicate k 97 := by
      intro k
      constructor <;> intro h <;> have := List.eq_of_mem_replicate h <;> omega
    have hpre : (10 : Nat) ∉ List.replicate 1998 97 ++ [97, 97] := by
      simp only [List.mem_append, not_or]
      exact ⟨(hP 1998).2, by decide⟩
    have ht : List.take (3 : Int).toNat [97, 97, 10] = [97, 97, 10] := by decide
    have hsplit : List.replicate 1998 97 ++ [97, 97, 10] =
        (List.replicate 1998 97 ++ [97, 97]) ++ 10 :: [] := by
      rw [List.append_assoc]
      rfl
    refine hover s { fd := 4, id := 0, msg := List.replicate 1998 97 } 3 [97, 97, 10]
      (by decide) (hP 1998).1 (by decide)
      ⟨(List.replicate 1998 97 ++ [97, 97]) ++ [10], ?_, ?_⟩
    · show (List.replicate 1998 97 ++ [97, 97]) ++ [10] ∈
        complete_lines (List.replicate 1998 97 ++ List.take (3 : Int).toNat [97, 97, 10])
      rw [ht, hsplit, complete_lines_first _ _ hpre]
      exact List.mem_cons_self _ _
    · have hlen := chat_text_length (0 : Int) ((List.replicate 1998 97 ++ [97, 97]) ++ [10])
      simp only [List.length_append, List.length_replicate, List.length_cons,
        List.length_nil] at hlen
      simp only [fits_msg, MSG_SIZE, decide_eq_false_iff_not, not_le, List.length_append,
        List.length_replicate, List.length_cons, List.length_nil]
      omega

/-- Witness of C5: client 0, on handle 4, has `"he"` pending and reads
`"llo\nyo\nx"`; the call stays within `msg` and client 1, on handle 5, is sent
two texts. -/
theorem chat_line_format_witness :
    find_client two_clients 4 = some { fd := 4, id := 0, msg := lit "he" } ∧
    (handle_client_message_bounded two_clients { fd := 4, id := 0, msg := lit "he" } 9
        (lit "llo\nyo\nx")).map (fun r => r.2) =
      some [{ sender_fd := 4, message := lit "client 0: hello\n", sent_to := [5] },
            { sender_fd := 4, message := lit "client 0: yo\n", sent_to := [5] }] := by
  refine ⟨by decide, ?_⟩
  obtain ⟨r, h1, h2, -⟩ := chat_line_format.1 two_clients { fd := 4, id := 0, msg := lit "he" } 9
    (lit "llo\nyo\nx") (by decide) (by decide) (by decide) (by decide)
  rw [h1, Option.map_some', h2]
  decide

end MiniServ
